import Mathlib

/-!
Verification of the BitBadges builder core: address derivation (aliases),
bech32 codec, address format conversion, coin registry lookup, and the
transaction rule validator.  Strings are modelled as lists of character
codes (`List Nat`); all inputs of interest are ASCII, so character codes
coincide with UTF-8 bytes.
-/

/-- Character codes of a Lean string literal (ASCII). -/
def ascii (s : String) : List Nat := s.data.map Char.toNat

/-- JS `String.prototype.toLowerCase` on an ASCII character code. -/
def lowerCode (c : Nat) : Nat := if 65 ≤ c ∧ c ≤ 90 then c + 32 else c

/-- JS `String.prototype.toUpperCase` on an ASCII character code. -/
def upperCode (c : Nat) : Nat := if 97 ≤ c ∧ c ≤ 122 then c - 32 else c

def toLowerList (s : List Nat) : List Nat := s.map lowerCode

def toUpperList (s : List Nat) : List Nat := s.map upperCode

/-- `a.startsWith(p)` on code lists. -/
def startsWithL : List Nat → List Nat → Bool
  | [], _ => true
  | _ :: _, [] => false
  | p :: ps, c :: cs => p = c && startsWithL ps cs

/-- `a.includes(p)` (substring containment) on code lists. -/
def includesL (p : List Nat) : List Nat → Bool
  | [] => startsWithL p []
  | c :: cs => startsWithL p (c :: cs) || includesL p cs

/-- `s.split(sep)` for a one-character separator, on code lists. -/
def splitOnCode (sep : Nat) : List Nat → List (List Nat)
  | [] => [[]]
  | c :: cs =>
    let rest := splitOnCode sep cs
    if c = sep then [] :: rest
    else match rest with
      | [] => [[c]]
      | r :: rs => (c :: r) :: rs

/-- Decimal digits of a natural number, as character codes. -/
def natToStr (n : Nat) : List Nat := (Nat.toDigits 10 n).map Char.toNat

/-- JS `String(n)` for an integer value. -/
def intToStr (n : Int) : List Nat :=
  if n < 0 then 45 :: natToStr n.natAbs else natToStr n.natAbs

/- ## Hex encoding (Buffer.from(_, 'hex') / Buffer.toString('hex')) -/

def isHexDigit (c : Nat) : Bool :=
  (48 ≤ c ∧ c ≤ 57) || (97 ≤ c ∧ c ≤ 102) || (65 ≤ c ∧ c ≤ 70)

/-- Numeric value of a hex digit (0 for non-digits; guarded by `isHexDigit`). -/
def hexVal (c : Nat) : Nat :=
  if 48 ≤ c ∧ c ≤ 57 then c - 48
  else if 97 ≤ c ∧ c ≤ 102 then c - 87
  else if 65 ≤ c ∧ c ≤ 70 then c - 55
  else 0

/-- The regex `^[0-9a-fA-F]+$` from `addressUtils.isHex`. -/
def isHexList (s : List Nat) : Bool := s.all isHexDigit && !s.isEmpty

/-- `Buffer.from(s, 'hex')`: pairs of hex digits to bytes. -/
def hexDecode : List Nat → List Nat
  | c1 :: c2 :: rest => (16 * hexVal c1 + hexVal c2) :: hexDecode rest
  | _ => []

/-- Lower-case hex digit for a value `< 16`. -/
def hexDigitCode (v : Nat) : Nat := if v < 10 then 48 + v else 87 + v

/-- `Buffer.toString('hex')`: bytes to lower-case hex digits. -/
def toHex : List Nat → List Nat
  | [] => []
  | b :: rest => hexDigitCode (b / 16) :: hexDigitCode (b % 16) :: toHex rest

/- ## SHA-256 (the `crypto.createHash('sha256')` primitive)

Implemented over byte lists with arithmetic modulo 2^32. -/

def add32 (a b : Nat) : Nat := (a + b) % 4294967296

def rotr32 (n x : Nat) : Nat := ((x >>> n) ||| (x <<< (32 - n))) % 4294967296

def shaCh (e f g : Nat) : Nat := (e &&& f) ^^^ ((e ^^^ 4294967295) &&& g)

def shaMaj (a b c : Nat) : Nat := (a &&& b) ^^^ (a &&& c) ^^^ (b &&& c)

def shaS0 (x : Nat) : Nat := rotr32 2 x ^^^ rotr32 13 x ^^^ rotr32 22 x

def shaS1 (x : Nat) : Nat := rotr32 6 x ^^^ rotr32 11 x ^^^ rotr32 25 x

def shas0 (x : Nat) : Nat := rotr32 7 x ^^^ rotr32 18 x ^^^ (x >>> 3)

def shas1 (x : Nat) : Nat := rotr32 17 x ^^^ rotr32 19 x ^^^ (x >>> 10)

def shaK : List Nat :=
  [1116352408, 1899447441, 3049323471, 3921009573, 961987163, 1508970993,
   2453635748, 2870763221, 3624381080, 310598401, 607225278, 1426881987,
   1925078388, 2162078206, 2614888103, 3248222580, 3835390401, 4022224774,
   264347078, 604807628, 770255983, 1249150122, 1555081692, 1996064986,
   2554220882, 2821834349, 2952996808, 3210313671, 3336571891, 3584528711,
   113926993, 338241895, 666307205, 773529912, 1294757372, 1396182291,
   1695183700, 1986661051, 2177026350, 2456956037, 2730485921, 2820302411,
   3259730800, 3345764771, 3516065817, 3600352804, 4094571909, 275423344,
   430227734, 506948616, 659060556, 883997877, 958139571, 1322822218,
   1537002063, 1747873779, 1955562222, 2024104815, 2227730452, 2361852424,
   2428436474, 2756734187, 3204031479, 3329325298]

def shaH0 : List Nat :=
  [1779033703, 3144134277, 1013904242, 2773480762,
   1359893119, 2600822924, 528734635, 1541459225]

/-- Big-endian 8-byte encoding of a (64-bit) length. -/
def be64 (n : Nat) : List Nat :=
  [(n >>> 56) &&& 255, (n >>> 48) &&& 255, (n >>> 40) &&& 255, (n >>> 32) &&& 255,
   (n >>> 24) &&& 255, (n >>> 16) &&& 255, (n >>> 8) &&& 255, n &&& 255]

/-- Big-endian 4-byte encoding of a 32-bit word. -/
def be32 (n : Nat) : List Nat :=
  [(n >>> 24) &&& 255, (n >>> 16) &&& 255, (n >>> 8) &&& 255, n &&& 255]

def shaPad (msg : List Nat) : List Nat :=
  msg ++ 128 :: List.replicate ((64 - (msg.length + 9) % 64) % 64) 0 ++ be64 (8 * msg.length)

/-- Group bytes into big-endian 32-bit words. -/
def beWords : List Nat → List Nat
  | a :: b :: c :: d :: rest => ((a <<< 24) ||| (b <<< 16) ||| (c <<< 8) ||| d) :: beWords rest
  | _ => []

/-- Extend the 16-word message schedule by `k` further words. -/
def shaSched (w : List Nat) : Nat → List Nat
  | 0 => w
  | k + 1 =>
    let n := w.length
    shaSched (w ++ [add32 (add32 (shas1 (w.getD (n - 2) 0)) (w.getD (n - 7) 0))
                         (add32 (shas0 (w.getD (n - 15) 0)) (w.getD (n - 16) 0))]) k

/-- One compression round. State is `(a, b, c, d, e, f, g, h)`. -/
def shaRound (st : Nat × Nat × Nat × Nat × Nat × Nat × Nat × Nat) (kw : Nat × Nat) :
    Nat × Nat × Nat × Nat × Nat × Nat × Nat × Nat :=
  match st, kw with
  | (a, b, c, d, e, f, g, h), (k, w) =>
    let t1 := add32 (add32 (add32 h (shaS1 e)) (add32 (shaCh e f g) k)) w
    let t2 := add32 (shaS0 a) (shaMaj a b c)
    (add32 t1 t2, a, b, c, add32 d t1, e, f, g)

/-- Add the compressed state back onto the running hash values. -/
def shaMerge (hs : List Nat) (st : Nat × Nat × Nat × Nat × Nat × Nat × Nat × Nat) :
    List Nat :=
  match st with
  | (a, b, c, d, e, f, g, h) =>
    [add32 (hs.getD 0 0) a, add32 (hs.getD 1 0) b, add32 (hs.getD 2 0) c,
     add32 (hs.getD 3 0) d, add32 (hs.getD 4 0) e, add32 (hs.getD 5 0) f,
     add32 (hs.getD 6 0) g, add32 (hs.getD 7 0) h]

/-- Compress one 64-byte block into the running hash values. -/
def shaCompress (hs : List Nat) (block : List Nat) : List Nat :=
  shaMerge hs ((shaK.zip (shaSched (beWords block) 48)).foldl shaRound
    (hs.getD 0 0, hs.getD 1 0, hs.getD 2 0, hs.getD 3 0,
     hs.getD 4 0, hs.getD 5 0, hs.getD 6 0, hs.getD 7 0))

/-- Fold the padded message block-by-block (fuel = number of blocks). -/
def shaBlocks (fuel : Nat) (hs : List Nat) (padded : List Nat) : List Nat :=
  match fuel with
  | 0 => hs
  | fe + 1 =>
    match padded with
    | [] => hs
    | _ => shaBlocks fe (shaCompress hs (padded.take 64)) (padded.drop 64)

/-- SHA-256 of a byte list, as 32 bytes. -/
def sha256 (msg : List Nat) : List Nat :=
  let padded := shaPad msg
  ((shaBlocks (padded.length / 64) shaH0 padded).map be32).flatten

/- ## Alias address generation (`addressGenerator.ts`, ported from
`bitbadgesjs-sdk/src/core/aliases.ts`) -/

def BackedPathGenerationPrefixByte : Nat := 0x12

def DenomGenerationPrefixByte : Nat := 0x0c

/-- `Hash(typ, key)`: hex digest of `SHA-256(SHA-256(typ) || key)`. -/
def HashFn (typ key : List Nat) : List Nat := toHex (sha256 (sha256 typ ++ key))

/-- `Derive(address, key)`: re-hash a hex address with a further key. -/
def Derive (address key : List Nat) : List Nat := HashFn (hexDecode address) key

/-- `Module(moduleName, ...derivationKeys)`: seed with the first key, then
fold the remaining keys through `Derive`.  Returns `none` exactly when the
key list is empty (the TS code throws there). -/
def ModuleAddr (moduleName : List Nat) (derivationKeys : List (List Nat)) : Option (List Nat) :=
  match derivationKeys with
  | [] => none
  | k0 :: rest =>
    some (rest.foldl (fun addr k => Derive addr k)
      (HashFn (ascii "module") (moduleName ++ [0] ++ k0)))

/- ## Bech32 codec (the `bech32` npm package, as used by the repository) -/

def bech32Charset : List Nat := ascii "qpzry9x8gf2tvdw0s3jn54khce6mua7l"

/-- `ALPHABET.charAt(v)` for a 5-bit value. -/
def bech32CharAt (v : Nat) : Nat := bech32Charset.getD v 0

def indexInAux (c : Nat) : List Nat → Nat → Option Nat
  | [], _ => none
  | a :: l, i => if a = c then some i else indexInAux c l (i + 1)

/-- `ALPHABET_MAP[c]`: position of a character in the bech32 charset. -/
def bech32CharRev (c : Nat) : Option Nat := indexInAux c bech32Charset 0

/-- The bech32 BCH checksum step (`polymodStep`). -/
def polymodStep (pre : Nat) : Nat :=
  ((pre % 33554432) <<< 5) ^^^
  (if (pre >>> 25).testBit 0 then 0x3b6a57b2 else 0) ^^^
  (if (pre >>> 25).testBit 1 then 0x26508e6d else 0) ^^^
  (if (pre >>> 25).testBit 2 then 0x1ea119fa else 0) ^^^
  (if (pre >>> 25).testBit 3 then 0x3d4233dd else 0) ^^^
  (if (pre >>> 25).testBit 4 then 0x2a1462b3 else 0)

/-- `prefixChk`: fold the human-readable part into the checksum state.
`none` when some character is outside the range 33..126. -/
def bech32HrpChk (hrp : List Nat) : Option Nat :=
  if hrp.all (fun c => 33 ≤ c && c ≤ 126) then
    some ((hrp.foldl (fun chk c => polymodStep chk ^^^ (c &&& 31))
      (polymodStep (hrp.foldl (fun chk c => polymodStep chk ^^^ (c >>> 5)) 1))))
  else none

def polymodStep6 (chk : Nat) : Nat :=
  polymodStep (polymodStep (polymodStep (polymodStep (polymodStep (polymodStep chk)))))

def bech32ChkWords (chk2 : Nat) : List Nat :=
  [(chk2 >>> 25) &&& 31, (chk2 >>> 20) &&& 31, (chk2 >>> 15) &&& 31,
   (chk2 >>> 10) &&& 31, (chk2 >>> 5) &&& 31, chk2 &&& 31]

/-- `bech32.encode(prefix, words)` with the default length limit 90.
`none` models the thrown `Exceeds length limit` / `Non 5-bit word` errors. -/
def bech32Encode (hrp words : List Nat) : Option (List Nat) :=
  if hrp.length + 7 + words.length > 90 then none
  else
    let p := toLowerList hrp
    match bech32HrpChk p with
    | none => none
    | some chk0 =>
      if words.any (fun x => x >>> 5 ≠ 0) then none
      else
        let chk1 := words.foldl (fun chk x => polymodStep chk ^^^ x) chk0
        let chk2 := polymodStep6 chk1 ^^^ 1
        some (p ++ 49 :: words.map bech32CharAt ++ (bech32ChkWords chk2).map bech32CharAt)

/-- Index of the last occurrence of `x` (JS `lastIndexOf`). -/
def lastIndexOf? (x : Nat) : List Nat → Option Nat
  | [] => none
  | a :: l =>
    match lastIndexOf? x l with
    | some i => some (i + 1)
    | none => if a = x then some 0 else none

/-- Map data characters through `ALPHABET_MAP`; `none` on an unknown character. -/
def bech32CharsRev : List Nat → Option (List Nat)
  | [] => some []
  | c :: l =>
    match bech32CharRev c, bech32CharsRev l with
    | some v, some vs => some (v :: vs)
    | _, _ => none

/-- `bech32.decode(str)` with the default length limit 90.  Returns the
human-readable part and the data words (checksum stripped); `none` models
every thrown decoding error. -/
def bech32Decode (str : List Nat) : Option (List Nat × List Nat) :=
  if str.length < 8 then none
  else if str.length > 90 then none
  else
    let lowered := toLowerList str
    let uppered := toUpperList str
    if str ≠ lowered ∧ str ≠ uppered then none
    else
      let t := lowered
      match lastIndexOf? 49 t with
      | none => none
      | some split =>
        if split = 0 then none
        else
          let hrp := t.take split
          let wordChars := t.drop (split + 1)
          if wordChars.length < 6 then none
          else
            match bech32HrpChk hrp with
            | none => none
            | some chk0 =>
              match bech32CharsRev wordChars with
              | none => none
              | some vals =>
                if vals.foldl (fun chk v => polymodStep chk ^^^ v) chk0 ≠ 1 then none
                else some (hrp, vals.take (vals.length - 6))

/- ### 8-bit/5-bit regrouping (`toWords` / `fromWords`) -/

/-- Emit 5-bit groups from the accumulator while at least 5 bits remain. -/
def emit5 (v : Nat) : Nat → List Nat
  | bits + 5 => ((v >>> bits) &&& 31) :: emit5 v bits
  | _ => []

/-- Emit 8-bit groups from the accumulator while at least 8 bits remain. -/
def emit8 (v : Nat) : Nat → List Nat
  | bits + 8 => ((v >>> bits) &&& 255) :: emit8 v bits
  | _ => []

/-- `convert(data, 8, 5, true)` = `bech32.toWords`.  `value`/`bits` is the
accumulator state (initially 0, 0). -/
def conv85 : List Nat → Nat → Nat → List Nat
  | [], value, bits => if 0 < bits then [(value <<< (5 - bits)) &&& 31] else []
  | d :: rest, value, bits =>
    let v := (value <<< 8) ||| d
    emit5 v (bits + 8) ++ conv85 rest v ((bits + 8) % 5)

/-- `convert(data, 5, 8, false)` = `bech32.fromWords`.  `none` models the
thrown `Excess padding` / `Non-zero padding` errors. -/
def conv58 : List Nat → Nat → Nat → Option (List Nat)
  | [], value, bits =>
    if bits ≥ 5 then none
    else if (value <<< (8 - bits)) &&& 255 ≠ 0 then none
    else some []
  | d :: rest, value, bits =>
    let v := (value <<< 5) ||| d
    (conv58 rest v ((bits + 5) % 8)).map (fun out => emit8 v (bits + 5) ++ out)

/-- `bech32.toWords(bytes)`. -/
def toWordsB (bytes : List Nat) : List Nat := conv85 bytes 0 0

/-- `bech32.fromWords(words)`. -/
def fromWordsB (words : List Nat) : Option (List Nat) := conv58 words 0 0

/-- `generateAlias`: derive the module address and bech32-encode it with the
`bb` human-readable part. -/
def generateAlias (moduleName : List Nat) (derivationKeys : List (List Nat)) :
    Option (List Nat) :=
  (ModuleAddr moduleName derivationKeys).bind
    (fun addrHex => bech32Encode (ascii "bb") (toWordsB (hexDecode addrHex)))

/-- `getAliasDerivationKeysForIBCBackedDenom`: the tag byte `0x12` as one key
and the denom bytes as a second key. -/
def getAliasDerivationKeysForIBCBackedDenom (ibcDenom : List Nat) : List (List Nat) :=
  [[BackedPathGenerationPrefixByte], ibcDenom]

/-- `generateAliasAddressForIBCBackedDenom`. -/
def generateAliasAddressForIBCBackedDenom (ibcDenom : List Nat) : Option (List Nat) :=
  generateAlias (ascii "tokenization") (getAliasDerivationKeysForIBCBackedDenom ibcDenom)

/-- `getAliasDerivationKeysForDenom`: tag byte `0x0c` and the denom bytes. -/
def getAliasDerivationKeysForDenom (denom : List Nat) : List (List Nat) :=
  [[DenomGenerationPrefixByte], denom]

/-- `generateAliasAddressForDenom`. -/
def generateAliasAddressForDenom (denom : List Nat) : Option (List Nat) :=
  generateAlias (ascii "tokenization") (getAliasDerivationKeysForDenom denom)

/- ## Address conversion (`addressUtils.ts`)

Thrown errors are modelled with `Except String`. -/

/-- `ethToCosmos`: 0x-hex address to a `bb1` bech32 address. -/
def ethToCosmos (ethAddress : List Nat) : Except String (List Nat) :=
  if ¬ startsWithL (ascii "0x") ethAddress then
    .error "Invalid ETH address: must start with 0x"
  else
    let hex := ethAddress.drop 2
    if ¬ (hex.length = 40 ∧ isHexList hex) then
      .error "Invalid ETH address: must be 40 hex characters after 0x"
    else
      match bech32Encode (ascii "bb") (toWordsB (hexDecode hex)) with
      | some s => .ok s
      | none => .error "bech32 encode failed"

/-- `cosmosToEth`: `bb1` bech32 address to a 0x-hex address. -/
def cosmosToEth (cosmosAddress : List Nat) : Except String (List Nat) :=
  if ¬ startsWithL (ascii "bb1") cosmosAddress then
    .error "Invalid BitBadges address: must start with bb1"
  else
    match bech32Decode cosmosAddress with
    | none => .error "Failed to decode BitBadges address"
    | some (_, words) =>
      match fromWordsB words with
      | none => .error "Failed to decode BitBadges address"
      | some bytes =>
        if bytes.length ≠ 20 then
          .error "Address is not a standard 20-byte address (may be a module-derived address)"
        else
          .ok (ascii "0x" ++ toHex bytes)

/-- `toEthAddress`: pass 0x addresses through, convert `bb1` addresses,
reject everything else. -/
def toEthAddress (address : List Nat) : Except String (List Nat) :=
  if startsWithL (ascii "0x") address then .ok address
  else if startsWithL (ascii "bb1") address then cosmosToEth address
  else .error "Unknown address format"

/-- `toBitBadgesAddress`: pass `bb1` addresses through, convert 0x addresses,
reject everything else. -/
def toBitBadgesAddress (address : List Nat) : Except String (List Nat) :=
  if startsWithL (ascii "bb1") address then .ok address
  else if startsWithL (ascii "0x") address then ethToCosmos address
  else .error "Unknown address format"

/- ## Coin registry (`coinRegistry.ts`)

The `image` field of `CoinDetails` is never read by any code modelled here
and is omitted. -/

structure CoinDetails where
  symbol : List Nat
  label : List Nat
  decimals : List Nat
  baseDenom : List Nat
deriving DecidableEq

structure TokenInfo where
  symbol : List Nat
  ibcDenom : List Nat
  decimals : List Nat
  backingAddress : List Nat
  displayName : List Nat
deriving DecidableEq

/-- `MAINNET_COINS_REGISTRY` as an ordered association list. -/
def MAINNET_COINS_REGISTRY : List (List Nat × CoinDetails) :=
  [(ascii "ubadge",
    { label := ascii "BADGE", symbol := ascii "BADGE", decimals := ascii "9",
      baseDenom := ascii "ubadge" }),
   (ascii "badges:49:chaosnet",
    { label := ascii "CHAOS", symbol := ascii "CHAOS", decimals := ascii "9",
      baseDenom := ascii "badges:49:chaosnet" }),
   (ascii "ibc/F082B65C88E4B6D5EF1DB243CDA1D331D002759E938A0F5CD3FFDC5D53B3E349",
    { label := ascii "USDC", symbol := ascii "USDC", decimals := ascii "6",
      baseDenom := ascii "ibc/F082B65C88E4B6D5EF1DB243CDA1D331D002759E938A0F5CD3FFDC5D53B3E349" }),
   (ascii "ibc/A4DB47A9D3CF9A068D454513891B526702455D3EF08FB9EB558C561F9DC2B701",
    { label := ascii "ATOM", symbol := ascii "ATOM", decimals := ascii "6",
      baseDenom := ascii "ibc/A4DB47A9D3CF9A068D454513891B526702455D3EF08FB9EB558C561F9DC2B701" }),
   (ascii "ibc/ED07A3391A112B175915CD8FAF43A2DA8E4790EDE12566649D0C2F97716B8518",
    { label := ascii "OSMO", symbol := ascii "OSMO", decimals := ascii "6",
      baseDenom := ascii "ibc/ED07A3391A112B175915CD8FAF43A2DA8E4790EDE12566649D0C2F97716B8518" })]

/-- One step of `buildSymbolToTokenInfoMap`'s forEach body. -/
def registryStep (m : List (List Nat × TokenInfo)) (entry : List Nat × CoinDetails) :
    List (List Nat × TokenInfo) :=
  let baseDenom := entry.1
  let coinDetails := entry.2
  if startsWithL (ascii "ibc/") baseDenom then
    let symbol := toUpperList coinDetails.symbol
    if (m.map Prod.fst).contains symbol then m
    else
      match generateAliasAddressForIBCBackedDenom baseDenom with
      | some backingAddress =>
        m ++ [(symbol,
          { symbol := symbol, ibcDenom := baseDenom, decimals := coinDetails.decimals,
            backingAddress := backingAddress, displayName := coinDetails.label })]
      | none => m
  else m

/-- The map built by `buildSymbolToTokenInfoMap` (ignoring the cache). -/
def builtSymbolMap : List (List Nat × TokenInfo) :=
  MAINNET_COINS_REGISTRY.foldl registryStep []

/-- The module-level cache; `none` models `symbolToTokenInfoCache = null`. -/
def cacheMap (cache : Option (List (List Nat × TokenInfo))) : List (List Nat × TokenInfo) :=
  match cache with
  | some m => m
  | none => builtSymbolMap

/-- `buildSymbolToTokenInfoMap` with the cache made explicit: returns the map
and the updated cache variable. -/
def buildSymbolToTokenInfoMap (cache : Option (List (List Nat × TokenInfo))) :
    List (List Nat × TokenInfo) × Option (List (List Nat × TokenInfo)) :=
  (cacheMap cache, some (cacheMap cache))

/-- `Map.get` on the association list. -/
def mapGet (m : List (List Nat × TokenInfo)) (k : List Nat) : Option TokenInfo :=
  match m with
  | [] => none
  | (k', v) :: rest => if k' = k then some v else mapGet rest k

/-- The `for (const tokenInfo of tokenMap.values())` denom search. -/
def findByDenom (m : List (List Nat × TokenInfo)) (lowerQuery : List Nat) : Option TokenInfo :=
  match m with
  | [] => none
  | (_, ti) :: rest =>
    if toLowerList ti.ibcDenom = lowerQuery then some ti else findByDenom rest lowerQuery

/-- `lookupTokenInfo`, with the cache state passed explicitly. -/
def lookupTokenInfo (query : List Nat) (cache : Option (List (List Nat × TokenInfo))) :
    Option TokenInfo × Option (List (List Nat × TokenInfo)) :=
  let built := buildSymbolToTokenInfoMap cache
  let tokenMap := built.1
  let cache' := built.2
  match mapGet tokenMap (toUpperList query) with
  | some ti => (some ti, cache')
  | none =>
    match findByDenom tokenMap (toLowerList query) with
    | some ti => (some ti, cache')
    | none =>
      if startsWithL (ascii "ibc/") query then
        match generateAliasAddressForIBCBackedDenom query with
        | some backingAddress =>
          (some { symbol := ascii "UNKNOWN", ibcDenom := query, decimals := ascii "6",
                  backingAddress := backingAddress, displayName := ascii "Unknown IBC Token" },
           cache')
        | none => (none, cache')
      else (none, cache')

/- ## JSON values

`Json` models the result of `JSON.parse`.  Mutual inductives are used so
that all recursions are structural (and therefore kernel-computable).
Numbers are modelled by their integer part; no validator rule depends on a
numeric value other than on integers (`0`), only on number-ness. -/

mutual
inductive Json where
  | null
  | bool (b : Bool)
  | num (n : Int)
  | str (s : List Nat)
  | arr (xs : JsonList)
  | obj (fs : JsonFields)

inductive JsonList where
  | nil
  | cons (hd : Json) (tl : JsonList)

inductive JsonFields where
  | nil
  | cons (key : List Nat) (val : Json) (tl : JsonFields)
end

def JsonList.toList : JsonList → List Json
  | .nil => []
  | .cons h t => h :: JsonList.toList t

def JsonList.len : JsonList → Nat
  | .nil => 0
  | .cons _ t => JsonList.len t + 1

def JsonList.headJ : JsonList → Option Json
  | .nil => none
  | .cons h _ => some h

def fieldsGet : JsonFields → List Nat → Option Json
  | .nil, _ => none
  | .cons k v t, key => if k = key then some v else fieldsGet t key

/-- Property access `o[key]`: `none` models `undefined` (also on arrays and
primitives, whose named properties are all `undefined` here). -/
def getField : Json → List Nat → Option Json
  | .obj fs, key => fieldsGet fs key
  | _, _ => none

def fieldsHas (fs : JsonFields) (key : List Nat) : Bool := (fieldsGet fs key).isSome

/-- The `key in o` test. -/
def hasField (j : Json) (key : List Nat) : Bool := (getField j key).isSome

/-- Replace the value of an existing key in place, or append a new key
(JS object assignment semantics, for duplicate keys in a JSON text). -/
def fieldsSet : JsonFields → List Nat → Json → JsonFields
  | .nil, key, v => .cons key v .nil
  | .cons k v0 t, key, v =>
    if k = key then .cons k v t else .cons k v0 (fieldsSet t key v)

/-- JS truthiness of a JSON value. -/
def jsTruthy : Json → Bool
  | .null => false
  | .bool b => b
  | .num n => decide (n ≠ 0)
  | .str s => !s.isEmpty
  | .arr _ => true
  | .obj _ => true

/-- `typeof` is `'object'` (arrays and null included). -/
def isObjectLike : Json → Bool
  | .obj _ => true
  | .arr _ => true
  | .null => true
  | _ => false

def typeofStr : Json → List Nat
  | .null => ascii "object"
  | .bool _ => ascii "boolean"
  | .num _ => ascii "number"
  | .str _ => ascii "string"
  | .arr _ => ascii "object"
  | .obj _ => ascii "object"

/-- `o === t` for a string literal `t` (false when absent or non-string). -/
def optIsStr (o : Option Json) (t : List Nat) : Bool :=
  match o with
  | some (.str s) => s = t
  | _ => false

/-- `o === true`. -/
def optIsTrue (o : Option Json) : Bool :=
  match o with
  | some (.bool true) => true
  | _ => false

/-- `o === v` for an integer literal `v`. -/
def optIsNum (o : Option Json) (v : Int) : Bool :=
  match o with
  | some (.num n) => n = v
  | _ => false

def optTruthy (o : Option Json) : Bool :=
  match o with
  | some j => jsTruthy j
  | none => false

def jsonListContainsStr : JsonList → List Nat → Bool
  | .nil, _ => false
  | .cons h t, s =>
    (match h with
     | .str s' => s' = s
     | _ => false) || jsonListContainsStr t s

/- ## JSON parser (`JSON.parse`)

Recursion is on an explicit fuel so that parsing is structural; the fuel
used by `parseJson` is always sufficient.  The parser accepts standard JSON
(it is slightly more liberal on number syntax, e.g. leading zeros, which
does not affect any property proved here). -/

def skipWs : List Nat → List Nat
  | [] => []
  | c :: cs => if c = 32 ∨ c = 9 ∨ c = 10 ∨ c = 13 then skipWs cs else c :: cs

def escCode (e : Nat) : Option Nat :=
  if e = 34 then some 34
  else if e = 92 then some 92
  else if e = 47 then some 47
  else if e = 98 then some 8
  else if e = 102 then some 12
  else if e = 110 then some 10
  else if e = 114 then some 13
  else if e = 116 then some 9
  else none

def spanDigits : List Nat → List Nat × List Nat
  | [] => ([], [])
  | c :: cs =>
    if 48 ≤ c ∧ c ≤ 57 then
      let (d, r) := spanDigits cs
      (c :: d, r)
    else ([], c :: cs)

def digitsToNat (ds : List Nat) : Nat := ds.foldl (fun a d => 10 * a + (d - 48)) 0

/-- Parse the fraction/exponent suffix of a number literal (value ignored:
numbers are modelled by their integer part). -/
def parseNumSuffix (s : List Nat) : Option (List Nat) :=
  let afterFrac :=
    match s with
    | 46 :: r =>
      match spanDigits r with
      | ([], _) => none
      | (_, r2) => some r2
    | _ => some s
  match afterFrac with
  | none => none
  | some s2 =>
    match s2 with
    | e :: r =>
      if e = 101 ∨ e = 69 then
        let r2 := match r with
          | 43 :: r' => r'
          | 45 :: r' => r'
          | _ => r
        match spanDigits r2 with
        | ([], _) => none
        | (_, r3) => some r3
      else some s2
    | [] => some s2

def parseNumber (s : List Nat) : Option (Json × List Nat) :=
  let (neg, s1) :=
    match s with
    | 45 :: r => (true, r)
    | _ => (false, s)
  match spanDigits s1 with
  | ([], _) => none
  | (ds, s2) =>
    match parseNumSuffix s2 with
    | none => none
    | some s3 =>
      let iv : Int := (digitsToNat ds : Nat)
      some (.num (if neg then -iv else iv), s3)

mutual
def parseStrBody : Nat → List Nat → Option (List Nat × List Nat)
  | 0, _ => none
  | _ + 1, [] => none
  | fuel + 1, c :: cs =>
    if c = 34 then some ([], cs)
    else if c = 92 then
      match cs with
      | [] => none
      | e :: cs' =>
        if e = 117 then
          match cs' with
          | h1 :: h2 :: h3 :: h4 :: cs'' =>
            if isHexDigit h1 && isHexDigit h2 && isHexDigit h3 && isHexDigit h4 then
              (parseStrBody fuel cs'').map
                (fun p => ((hexVal h1 * 4096 + hexVal h2 * 256 + hexVal h3 * 16 + hexVal h4) :: p.1, p.2))
            else none
          | _ => none
        else
          match escCode e with
          | some ec => (parseStrBody fuel cs').map (fun p => (ec :: p.1, p.2))
          | none => none
    else (parseStrBody fuel cs).map (fun p => (c :: p.1, p.2))

def parseValue : Nat → List Nat → Option (Json × List Nat)
  | 0, _ => none
  | fuel + 1, s =>
    match skipWs s with
    | [] => none
    | c :: cs =>
      if c = 110 then
        if startsWithL (ascii "ull") cs then some (.null, cs.drop 3) else none
      else if c = 116 then
        if startsWithL (ascii "rue") cs then some (.bool true, cs.drop 3) else none
      else if c = 102 then
        if startsWithL (ascii "alse") cs then some (.bool false, cs.drop 4) else none
      else if c = 34 then
        (parseStrBody fuel cs).map (fun p => (.str p.1, p.2))
      else if c = 91 then
        match skipWs cs with
        | 93 :: r => some (.arr .nil, r)
        | _ => (parseElems fuel cs).map (fun p => (.arr p.1, p.2))
      else if c = 123 then
        match skipWs cs with
        | 125 :: r => some (.obj .nil, r)
        | _ => (parseMembers fuel .nil cs).map (fun p => (.obj p.1, p.2))
      else if c = 45 ∨ (48 ≤ c ∧ c ≤ 57) then parseNumber (c :: cs)
      else none

def parseElems : Nat → List Nat → Option (JsonList × List Nat)
  | 0, _ => none
  | fuel + 1, s =>
    match parseValue fuel s with
    | none => none
    | some (v, r) =>
      match skipWs r with
      | 44 :: r2 => (parseElems fuel r2).map (fun p => (.cons v p.1, p.2))
      | 93 :: r2 => some (.cons v .nil, r2)
      | _ => none

def parseMembers : Nat → JsonFields → List Nat → Option (JsonFields × List Nat)
  | 0, _, _ => none
  | fuel + 1, acc, s =>
    match skipWs s with
    | 34 :: cs =>
      match parseStrBody fuel cs with
      | none => none
      | some (k, r) =>
        match skipWs r with
        | 58 :: r2 =>
          match parseValue fuel r2 with
          | none => none
          | some (v, r3) =>
            match skipWs r3 with
            | 44 :: r4 => parseMembers fuel (fieldsSet acc k v) r4
            | 125 :: r4 => some (fieldsSet acc k v, r4)
            | _ => none
        | _ => none
    | _ => none
end

/-- `JSON.parse`: `none` models a thrown `SyntaxError`. -/
def parseJson (s : List Nat) : Option Json :=
  match parseValue (2 * s.length + 2) s with
  | some (j, r) => if skipWs r = [] then some j else none
  | none => none

/- ## Transaction rule validator (`validateTransaction.ts`) -/

inductive Severity where
  | error
  | warning
deriving DecidableEq

structure ValidationIssue where
  severity : Severity
  message : List Nat
  path : Option (List Nat)
deriving DecidableEq

structure ValidateTransactionResult where
  valid : Bool
  issues : List ValidationIssue
deriving DecidableEq

def isErrorIssue (i : ValidationIssue) : Bool :=
  match i.severity with
  | .error => true
  | .warning => false

def RESERVED_LIST_IDS : List (List Nat) :=
  [ascii "All", ascii "Mint", ascii "Total", ascii "!Mint"]

/-- `isValidListId`. -/
def isValidListId (id : List Nat) : Bool :=
  if RESERVED_LIST_IDS.contains id then true
  else if startsWithL [33] id && RESERVED_LIST_IDS.contains (id.drop 1) then true
  else if startsWithL (ascii "bb1") id then true
  else if startsWithL (ascii "!bb1") id then true
  else if includesL [58] id && !startsWithL [33] id then
    (splitOnCode 58 id).all (fun part => startsWithL (ascii "bb1") part)
  else if startsWithL [33] id && includesL [58] id then
    (splitOnCode 58 (id.drop 1)).all (fun part => startsWithL (ascii "bb1") part)
  else if startsWithL (ascii "!Mint:bb1") id then true
  else false

/-- Index path component `[i]`. -/
def brack (i : Nat) : List Nat := 91 :: natToStr i ++ [93]

/- `checkNumbersAreStrings`, returning the issues it pushes, in order. -/
mutual
def checkNumbersAreStrings : Json → List Nat → List ValidationIssue
  | .null, _ => []
  | .num n, path =>
    [⟨.error, ascii "Number value found where string expected. Use \"" ++ intToStr n ++
        ascii "\" instead of " ++ intToStr n, some path⟩]
  | .bool _, _ => []
  | .str _, _ => []
  | .arr xs, path => checkNumbersList xs 0 path
  | .obj fs, path => checkNumbersFields fs path

def checkNumbersList : JsonList → Nat → List Nat → List ValidationIssue
  | .nil, _, _ => []
  | .cons h t, i, path =>
    checkNumbersAreStrings h (path ++ brack i) ++ checkNumbersList t (i + 1) path

def checkNumbersFields : JsonFields → List Nat → List ValidationIssue
  | .nil, _ => []
  | .cons k v t, path =>
    checkNumbersAreStrings v (path ++ 46 :: k) ++ checkNumbersFields t path
end

/-- `checkUintRangeFormat`. -/
def checkUintRangeFormat (j : Json) (path : List Nat) : List ValidationIssue :=
  if hasField j (ascii "start") || hasField j (ascii "end") then
    (match getField j (ascii "start") with
     | none => [⟨.error, ascii "UintRange missing \"start\" field", some path⟩]
     | some (.str _) => []
     | some v =>
       [⟨.error, ascii "UintRange \"start\" must be a string, got " ++ typeofStr v,
         some (path ++ ascii ".start")⟩]) ++
    (match getField j (ascii "end") with
     | none => [⟨.error, ascii "UintRange missing \"end\" field", some path⟩]
     | some (.str _) => []
     | some v =>
       [⟨.error, ascii "UintRange \"end\" must be a string, got " ++ typeofStr v,
         some (path ++ ascii ".end")⟩])
  else []

/- `findAndValidateUintRanges`. -/
mutual
def findAndValidateUintRanges : Json → List Nat → List ValidationIssue
  | .arr xs, path => findRangesList xs 0 path
  | .obj fs, path => checkUintRangeFormat (.obj fs) path ++ findRangesFields fs path
  | _, _ => []

def findRangesList : JsonList → Nat → List Nat → List ValidationIssue
  | .nil, _, _ => []
  | .cons h t, i, path =>
    findAndValidateUintRanges h (path ++ brack i) ++ findRangesList t (i + 1) path

def findRangesFields : JsonFields → List Nat → List ValidationIssue
  | .nil, _ => []
  | .cons k v t, path =>
    findAndValidateUintRanges v (path ++ 46 :: k) ++ findRangesFields t path
end

/-- `validateOrderCalculationMethod`. -/
def validateOrderCalculationMethod (orderCalc : Json) (path : List Nat) :
    List ValidationIssue :=
  let methods := [ascii "useOverallNumTransfers", ascii "usePerToAddressNumTransfers",
    ascii "usePerFromAddressNumTransfers", ascii "usePerInitiatedByAddressNumTransfers",
    ascii "useMerkleChallengeLeafIndex"]
  let trueCount := (methods.filter (fun m => optIsTrue (getField orderCalc m))).length
  if trueCount > 1 then
    [⟨.error, ascii "orderCalculationMethod MUST have exactly ONE method set to true, found " ++
       natToStr trueCount, some path⟩]
  else if trueCount = 0 then
    [⟨.warning,
      ascii "orderCalculationMethod should have exactly ONE method set to true (default: useOverallNumTransfers)",
      some path⟩]
  else []

/-- The `coinTransfers` loop of `validateSubscriptionApproval`. -/
def subCoinTransfers : JsonList → Nat → List Nat → List ValidationIssue
  | .nil, _, _ => []
  | .cons ct t, i, path =>
    (match ct with
     | .obj _ | .arr _ =>
       (if optIsTrue (getField ct (ascii "overrideFromWithApproverAddress")) then
          [⟨.warning, ascii "Subscription coinTransfers should have overrideFromWithApproverAddress: false",
            some (path ++ ascii ".approvalCriteria.coinTransfers" ++ brack i ++
              ascii ".overrideFromWithApproverAddress")⟩]
        else []) ++
       (if optIsTrue (getField ct (ascii "overrideToWithInitiator")) then
          [⟨.warning, ascii "Subscription coinTransfers should have overrideToWithInitiator: false",
            some (path ++ ascii ".approvalCriteria.coinTransfers" ++ brack i ++
              ascii ".overrideToWithInitiator")⟩]
        else [])
     | _ => []) ++ subCoinTransfers t (i + 1) path

/-- The `incrementedBalances` checks of `validateSubscriptionApproval`. -/
def incrBalIssues (ib : Json) (path : List Nat) : List ValidationIssue :=
  (if optIsStr (getField ib (ascii "durationFromTimestamp")) (ascii "0") ||
      optIsNum (getField ib (ascii "durationFromTimestamp")) 0 then
     [⟨.warning, ascii "Subscription durationFromTimestamp should be non-zero (subscription duration in ms)",
       some (path ++ ascii ".approvalCriteria.predeterminedBalances.incrementedBalances.durationFromTimestamp")⟩]
   else []) ++
  (if !optIsTrue (getField ib (ascii "allowOverrideTimestamp")) then
     [⟨.warning, ascii "Subscription allowOverrideTimestamp should be true",
       some (path ++ ascii ".approvalCriteria.predeterminedBalances.incrementedBalances.allowOverrideTimestamp")⟩]
   else [])

/-- `validateSubscriptionApproval`. -/
def validateSubscriptionApproval (approval : Json) (path : List Nat) : List ValidationIssue :=
  match getField approval (ascii "approvalCriteria") with
  | none => []
  | some criteria =>
    if !jsTruthy criteria then []
    else
      (match getField criteria (ascii "coinTransfers") with
       | some (.arr xs) => subCoinTransfers xs 0 path
       | _ => []) ++
      (match getField criteria (ascii "predeterminedBalances") with
       | none => []
       | some pb =>
         if !jsTruthy pb then []
         else
           (match getField pb (ascii "incrementedBalances") with
            | none => []
            | some ib => if !jsTruthy ib then [] else incrBalIssues ib path) ++
           (match getField pb (ascii "orderCalculationMethod") with
            | none => []
            | some oc =>
              if !jsTruthy oc then []
              else validateOrderCalculationMethod oc
                (path ++ ascii ".approvalCriteria.predeterminedBalances.orderCalculationMethod")))

/-- The list-id field check of `validateApprovals`. -/
def checkListIdField (a : Json) (approvalPath fieldName : List Nat) : List ValidationIssue :=
  match getField a fieldName with
  | some (.str v) =>
    if !isValidListId v then
      [⟨.error, ascii "Invalid list ID: \"" ++ v ++
         ascii "\". Use only reserved IDs (All, Mint, !Mint, Total) or bb1... addresses",
        some (approvalPath ++ 46 :: fieldName)⟩]
    else []
  | _ => []

/-- The per-approval body of `validateApprovals`. -/
def perApprovalIssues (a : Json) (approvalPath : List Nat) (isSubscription : Bool) :
    List ValidationIssue :=
  checkListIdField a approvalPath (ascii "fromListId") ++
  checkListIdField a approvalPath (ascii "toListId") ++
  checkListIdField a approvalPath (ascii "initiatedByListId") ++
  (if optIsStr (getField a (ascii "fromListId")) (ascii "Mint") then
     (match getField a (ascii "approvalCriteria") with
      | none => []
      | some criteria =>
        if jsTruthy criteria &&
            !optIsTrue (getField criteria (ascii "overridesFromOutgoingApprovals")) then
          [⟨.error, ascii "Mint approvals MUST have overridesFromOutgoingApprovals: true",
            some (approvalPath ++ ascii ".approvalCriteria.overridesFromOutgoingApprovals")⟩]
        else []) ++
     (if isSubscription then validateSubscriptionApproval a approvalPath else [])
   else []) ++
  (if (match getField a (ascii "fromListId") with
       | some (.str v) => startsWithL (ascii "bb1") v && !includesL (ascii "Mint") v
       | _ => false) then
     match getField a (ascii "approvalCriteria") with
     | none => []
     | some criteria =>
       if jsTruthy criteria && optIsTrue (getField criteria (ascii "overridesFromOutgoingApprovals")) &&
           optIsTrue (getField criteria (ascii "allowBackedMinting")) then
         [⟨.warning, ascii "Backing address approvals should NOT have overridesFromOutgoingApprovals: true",
           some (approvalPath ++ ascii ".approvalCriteria.overridesFromOutgoingApprovals")⟩]
       else []
   else []) ++
  (match getField a (ascii "approvalId") with
   | some (.str s) =>
     if s.isEmpty then
       [⟨.error, ascii "Approval missing required \"approvalId\" field", some approvalPath⟩]
     else []
   | _ => [⟨.error, ascii "Approval missing required \"approvalId\" field", some approvalPath⟩])

def validateApprovalsAux : JsonList → Nat → List Nat → Bool → List ValidationIssue
  | .nil, _, _, _ => []
  | .cons approval rest, index, path, isSubscription =>
    (match approval with
     | .obj _ | .arr _ => perApprovalIssues approval (path ++ brack index) isSubscription
     | _ => []) ++ validateApprovalsAux rest (index + 1) path isSubscription

/-- `validateApprovals`. -/
def validateApprovals (approvals : JsonList) (path : List Nat) (standards : Option JsonList) :
    List ValidationIssue :=
  let isSubscription :=
    match standards with
    | some l => jsonListContainsStr l (ascii "Subscriptions")
    | none => false
  validateApprovalsAux approvals 0 path isSubscription

/-- `validateTokenMetadata`. -/
def validateTokenMetadataAux : JsonList → Nat → List Nat → List ValidationIssue
  | .nil, _, _ => []
  | .cons entry rest, index, path =>
    (match entry with
     | .obj _ | .arr _ =>
       (match getField entry (ascii "tokenIds") with
        | some (.arr xs) =>
          if xs.len = 0 then
            [⟨.error, ascii "tokenMetadata entry MUST include tokenIds field with UintRange array",
              some (path ++ brack index)⟩]
          else []
        | _ =>
          [⟨.error, ascii "tokenMetadata entry MUST include tokenIds field with UintRange array",
            some (path ++ brack index)⟩])
     | _ => []) ++ validateTokenMetadataAux rest (index + 1) path

def validateTokenMetadata (metadata : JsonList) (path : List Nat) : List ValidationIssue :=
  validateTokenMetadataAux metadata 0 path

/-- Is this field an array with at least one element? -/
def fieldNonEmptyArr (j : Json) (key : List Nat) : Bool :=
  match getField j key with
  | some (.arr xs) => decide (0 < xs.len)
  | _ => false

/-- Is this field an array with exactly zero elements? -/
def fieldEmptyArr (j : Json) (key : List Nat) : Bool :=
  match getField j key with
  | some (.arr xs) => decide (xs.len = 0)
  | _ => false

/-- The token-id permission loop of `validatePermissions`. -/
def permTokenIdsAux : JsonList → Nat → List Nat → List Nat → List ValidationIssue
  | .nil, _, _, _ => []
  | .cons perm rest, index, path, fieldName =>
    (match perm with
     | .obj _ | .arr _ =>
       let hasTimes := fieldNonEmptyArr perm (ascii "permanentlyPermittedTimes") ||
         fieldNonEmptyArr perm (ascii "permanentlyForbiddenTimes")
       if hasTimes && !hasField perm (ascii "tokenIds") then
         [⟨.error, fieldName ++ ascii " permission MUST include tokenIds field",
           some (path ++ 46 :: fieldName ++ brack index)⟩]
       else []
     | _ => []) ++ permTokenIdsAux rest (index + 1) path fieldName

def fieldsEntries : JsonFields → List (List Nat × Json)
  | .nil => []
  | .cons k v t => (k, v) :: fieldsEntries t

def listEntries : JsonList → Nat → List (List Nat × Json)
  | .nil, _ => []
  | .cons h t, i => (natToStr i, h) :: listEntries t (i + 1)

/-- `Object.entries` (JSON object fields; array elements under index keys). -/
def entriesOf (j : Json) : List (List Nat × Json) :=
  match j with
  | .obj fs => fieldsEntries fs
  | .arr xs => listEntries xs 0
  | _ => []

/-- The empty-permission warning loop of `validatePermissions`. -/
def permEmptyWarnings (entries : List (List Nat × Json)) (path : List Nat) :
    List ValidationIssue :=
  match entries with
  | [] => []
  | (fieldName, value) :: rest =>
    (match value with
     | .arr xs =>
       if xs.len = 1 then
         match xs.headJ with
         | some perm =>
           if jsTruthy perm && fieldEmptyArr perm (ascii "permanentlyPermittedTimes") &&
               fieldEmptyArr perm (ascii "permanentlyForbiddenTimes") then
             [⟨.warning, ascii "Permission \"" ++ fieldName ++
                ascii "\" has both time arrays empty - should be [] instead of full object",
               some (path ++ 46 :: fieldName)⟩]
           else []
         | none => []
       else []
     | _ => []) ++ permEmptyWarnings rest path

/-- `validatePermissions`. -/
def validatePermissions (permissions : Json) (path : List Nat) : List ValidationIssue :=
  match permissions with
  | .obj _ | .arr _ =>
    (match getField permissions (ascii "canUpdateValidTokenIds") with
     | some (.arr xs) => permTokenIdsAux xs 0 path (ascii "canUpdateValidTokenIds")
     | _ => []) ++
    (match getField permissions (ascii "canUpdateTokenMetadata") with
     | some (.arr xs) => permTokenIdsAux xs 0 path (ascii "canUpdateTokenMetadata")
     | _ => []) ++
    permEmptyWarnings (entriesOf permissions) path
  | _ => []

/-- The `MsgUniversalUpdateCollection` checks. -/
def univUpdateIssues (value : Json) (msgPath : List Nat) : List ValidationIssue :=
  (match getField value (ascii "creator") with
   | some (.str s) =>
     if s.isEmpty then
       [⟨.error, ascii "MsgUniversalUpdateCollection missing \"creator\" field",
         some (msgPath ++ ascii ".value.creator")⟩]
     else if !startsWithL (ascii "bb1") s then
       [⟨.warning, ascii "Creator address should start with \"bb1\"",
         some (msgPath ++ ascii ".value.creator")⟩]
     else []
   | _ =>
     [⟨.error, ascii "MsgUniversalUpdateCollection missing \"creator\" field",
       some (msgPath ++ ascii ".value.creator")⟩]) ++
  (if !hasField value (ascii "collectionId") then
     [⟨.error, ascii "MsgUniversalUpdateCollection missing \"collectionId\" field",
       some (msgPath ++ ascii ".value.collectionId")⟩]
   else []) ++
  (match getField value (ascii "collectionApprovals") with
   | some (.arr approvals) =>
     validateApprovals approvals (msgPath ++ ascii ".value.collectionApprovals")
       (match getField value (ascii "standards") with
        | some (.arr ss) => some ss
        | _ => none)
   | _ => []) ++
  (if (match getField value (ascii "standards") with
       | some (.arr ss) => jsonListContainsStr ss (ascii "Subscriptions")
       | _ => false) then
     match getField value (ascii "validTokenIds") with
     | some (.arr tokenIds) =>
       if tokenIds.len ≠ 1 then
         [⟨.warning, ascii "Subscription collections should have exactly 1 validTokenIds range",
           some (msgPath ++ ascii ".value.validTokenIds")⟩]
       else
         match tokenIds.headJ with
         | some range =>
           if jsTruthy range &&
               !(optIsStr (getField range (ascii "start")) (ascii "1") &&
                 optIsStr (getField range (ascii "end")) (ascii "1")) then
             [⟨.warning,
               ascii "Subscription collections should have validTokenIds: [\x7b \"start\": \"1\", \"end\": \"1\" \x7d]",
               some (msgPath ++ ascii ".value.validTokenIds")⟩]
           else []
         | none => []
     | _ => []
   else []) ++
  (match getField value (ascii "tokenMetadata") with
   | some (.arr metadata) =>
     validateTokenMetadata metadata (msgPath ++ ascii ".value.tokenMetadata")
   | _ => []) ++
  (match getField value (ascii "collectionPermissions") with
   | none => []
   | some p =>
     if jsTruthy p then validatePermissions p (msgPath ++ ascii ".value.collectionPermissions")
     else [])

/-- The per-transfer loop of the `MsgTransferTokens` checks. -/
def transferEntriesAux : JsonList → Nat → List Nat → List ValidationIssue
  | .nil, _, _ => []
  | .cons t rest, index, msgPath =>
    (match t with
     | .obj _ | .arr _ =>
       if !hasField t (ascii "prioritizedApprovals") then
         [⟨.warning, ascii "prioritizedApprovals should always be explicitly specified (use [] if none needed)",
           some (msgPath ++ ascii ".value.transfers" ++ brack index ++ ascii ".prioritizedApprovals")⟩]
       else []
     | _ => []) ++ transferEntriesAux rest (index + 1) msgPath

/-- The `MsgTransferTokens` checks. -/
def transferIssues (value : Json) (msgPath : List Nat) : List ValidationIssue :=
  (match getField value (ascii "creator") with
   | some (.str s) =>
     if s.isEmpty then
       [⟨.error, ascii "MsgTransferTokens missing \"creator\" field",
         some (msgPath ++ ascii ".value.creator")⟩]
     else []
   | _ =>
     [⟨.error, ascii "MsgTransferTokens missing \"creator\" field",
       some (msgPath ++ ascii ".value.creator")⟩]) ++
  (match getField value (ascii "transfers") with
   | some (.arr ts) => transferEntriesAux ts 0 msgPath
   | _ =>
     [⟨.error, ascii "MsgTransferTokens missing \"transfers\" array",
       some (msgPath ++ ascii ".value.transfers")⟩])

/-- The per-message body of `handleValidateTransaction`. -/
def perMessageIssues (message : Json) (msgPath : List Nat) : List ValidationIssue :=
  (match getField message (ascii "typeUrl") with
   | some (.str s) =>
     if s.isEmpty then [⟨.error, ascii "Message missing \"typeUrl\" field", some msgPath⟩]
     else []
   | _ => [⟨.error, ascii "Message missing \"typeUrl\" field", some msgPath⟩]) ++
  (match getField message (ascii "value") with
   | some value =>
     match value with
     | .obj _ | .arr _ =>
       (if optIsStr (getField message (ascii "typeUrl"))
            (ascii "/tokenization.MsgUniversalUpdateCollection") then
          univUpdateIssues value msgPath
        else []) ++
       (if optIsStr (getField message (ascii "typeUrl"))
            (ascii "/tokenization.MsgTransferTokens") then
          transferIssues value msgPath
        else [])
     | _ => [⟨.error, ascii "Message missing \"value\" object", some msgPath⟩]
   | none => [⟨.error, ascii "Message missing \"value\" object", some msgPath⟩])

def messagesIssuesAux : JsonList → Nat → List ValidationIssue
  | .nil, _ => []
  | .cons msg rest, index =>
    (match msg with
     | .obj _ | .arr _ => perMessageIssues msg (ascii "messages" ++ brack index)
     | _ => []) ++ messagesIssuesAux rest (index + 1)

/-- `handleValidateTransaction` on an already-parsed document. -/
def handleParsed (tx : Json) : ValidateTransactionResult :=
  match tx with
  | .obj _ | .arr _ =>
    match getField tx (ascii "messages") with
    | some (.arr msgs) =>
      let issues := checkNumbersAreStrings tx [] ++ findAndValidateUintRanges tx [] ++
        messagesIssuesAux msgs 0
      { valid := decide ((issues.filter isErrorIssue).length = 0), issues := issues }
    | _ =>
      { valid := false,
        issues := [⟨.error, ascii "Transaction must have a \"messages\" array",
          some (ascii "messages")⟩] }
  | _ =>
    { valid := false,
      issues := [⟨.error, ascii "Transaction must be a JSON object", none⟩] }

/-- `handleValidateTransaction` on the raw input text.  The JS error message
interpolated into the parse-failure issue is modelled by a fixed text. -/
def handleValidateTransaction (transactionJson : List Nat) : ValidateTransactionResult :=
  match parseJson transactionJson with
  | none => { valid := false, issues := [⟨.error, ascii "Invalid JSON", none⟩] }
  | some tx => handleParsed tx

/-- The five order-calculation selector flags. -/
def orderCalcMethods : List (List Nat) :=
  [ascii "useOverallNumTransfers", ascii "usePerToAddressNumTransfers",
   ascii "usePerFromAddressNumTransfers", ascii "usePerInitiatedByAddressNumTransfers",
   ascii "useMerkleChallengeLeafIndex"]

/-- Is this JSON value an object (arrays and primitives are not)? -/
def isObjJ : Json → Bool
  | .obj _ => true
  | _ => false

/- ## Theorems -/

set_option maxRecDepth 100000

/-- Validity flag characterisation used by `handleValidateTransaction`. -/
theorem valid_flag_iff (issues : List ValidationIssue) :
    (decide ((issues.filter isErrorIssue).length = 0) = true) ↔
      ∀ i ∈ issues, i.severity ≠ Severity.error := by
  rw [decide_eq_true_iff, List.length_eq_zero, List.filter_eq_nil_iff]
  constructor
  · intro h i hi he
    have := h i hi
    simp [isErrorIssue, he] at this
  · intro h i hi
    have := h i hi
    cases hs : i.severity with
    | error => exact absurd hs this
    | warning => simp [isErrorIssue, hs]

/-- C9: any string starting with `bb1` or `!bb1` passes the list-identifier
check, whatever follows; in particular `bb1abc:notanaddress` is accepted, so
the per-segment address requirement of colon-joined lists is bypassed. -/
theorem c9_bb1_means_valid (s : List Nat)
    (h : startsWithL (ascii "bb1") s = true ∨ startsWithL (ascii "!bb1") s = true) :
    isValidListId s = true ∧ isValidListId (ascii "bb1abc:notanaddress") = true := by
  refine ⟨?_, by decide⟩
  unfold isValidListId
  rcases h with h | h <;> simp only [h] <;> split_ifs <;> simp_all

/-- C9 witness. -/
theorem c9_witness :
    isValidListId (ascii "bb1abc:notanaddress") = true ∧
      isValidListId (ascii "bb1abc:notanaddress") = true :=
  c9_bb1_means_valid (ascii "bb1abc:notanaddress") (Or.inl (by decide))


theorem orderCalcMethods_eq (oc : Json) (path : List Nat) :
    validateOrderCalculationMethod oc path =
      (let trueCount := (orderCalcMethods.filter (fun m => optIsTrue (getField oc m))).length
       if trueCount > 1 then
         [⟨.error, ascii "orderCalculationMethod MUST have exactly ONE method set to true, found " ++
            natToStr trueCount, some path⟩]
       else if trueCount = 0 then
         [⟨.warning,
           ascii "orderCalculationMethod should have exactly ONE method set to true (default: useOverallNumTransfers)",
           some path⟩]
       else []) := rfl

/-- C5: the order-calculation selector check records exactly one error when
more than one of the five flags is true, exactly one warning when none is
true, and nothing when exactly one is true. -/
theorem c5_order_calc_selector (oc : Json) (path : List Nat) :
    (1 < (orderCalcMethods.filter (fun m => optIsTrue (getField oc m))).length →
       ∃ msg, validateOrderCalculationMethod oc path = [⟨.error, msg, some path⟩]) ∧
    ((orderCalcMethods.filter (fun m => optIsTrue (getField oc m))).length = 0 →
       ∃ msg, validateOrderCalculationMethod oc path = [⟨.warning, msg, some path⟩]) ∧
    ((orderCalcMethods.filter (fun m => optIsTrue (getField oc m))).length = 1 →
       validateOrderCalculationMethod oc path = []) := by
  rw [orderCalcMethods_eq]
  refine ⟨fun h => ?_, fun h => ?_, fun h => ?_⟩ <;> simp only [] <;> split_ifs <;>
    first
      | exact ⟨_, rfl⟩
      | rfl
      | omega

/-- C5 witness: two flags true gives the error, zero flags gives the warning,
one flag gives no issue. -/
theorem c5_witness :
    (∃ msg, validateOrderCalculationMethod
        (.obj (.cons (ascii "useOverallNumTransfers") (.bool true)
          (.cons (ascii "useMerkleChallengeLeafIndex") (.bool true) .nil))) [] =
        [⟨.error, msg, some []⟩]) ∧
    (∃ msg, validateOrderCalculationMethod (.obj .nil) [] = [⟨.warning, msg, some []⟩]) ∧
    validateOrderCalculationMethod
        (.obj (.cons (ascii "useOverallNumTransfers") (.bool true) .nil)) [] = [] := by
  refine ⟨(c5_order_calc_selector _ []).1 (by decide),
    (c5_order_calc_selector _ []).2.1 (by decide),
    (c5_order_calc_selector _ []).2.2 (by decide)⟩

/-- C3: validating the exact text
`{"messages":[{"typeUrl":"T","value":{"amount":5}}]}` yields `valid = false`
and exactly one issue: an error whose path is `.messages[0].value.amount`
(the traversal renders the path with a leading dot). -/
theorem c3_number_literal_single_error :
    handleValidateTransaction
        (ascii "\x7b\"messages\":[\x7b\"typeUrl\":\"T\",\"value\":\x7b\"amount\":5\x7d\x7d]\x7d") =
      { valid := false,
        issues := [⟨.error,
          ascii "Number value found where string expected. Use \"5\" instead of 5",
          some (ascii ".messages[0].value.amount")⟩] } := by
  decide

/-- C10: when the input parses to a non-object value, or to an object whose
`messages` field is not an array, validation stops with `valid = false` and
exactly one error issue; no other rule runs on such a document. -/
theorem c10_shape_gate_single_error (s : List Nat) (j : Json)
    (hp : parseJson s = some j)
    (h : isObjJ j = false ∨ ∀ msgs, getField j (ascii "messages") ≠ some (.arr msgs)) :
    ∃ msg p, handleValidateTransaction s =
      { valid := false, issues := [⟨.error, msg, p⟩] } := by
  unfold handleValidateTransaction
  rw [hp]
  cases j with
  | obj fs =>
    have hm : ∀ msgs, fieldsGet fs (ascii "messages") ≠ some (.arr msgs) := by
      rcases h with h | h
      · simp [isObjJ] at h
      · exact fun msgs => h msgs
    show ∃ msg p, handleParsed (.obj fs) = _
    unfold handleParsed
    cases hg : getField (.obj fs) (ascii "messages") with
    | none => simp [hg]
    | some v =>
      cases v with
      | arr msgs => exact absurd hg (hm msgs)
      | null => simp [hg]
      | bool b => simp [hg]
      | num n => simp [hg]
      | str t => simp [hg]
      | obj fs2 => simp [hg]
  | arr xs => exact ⟨_, _, rfl⟩
  | null => exact ⟨_, _, rfl⟩
  | bool b => exact ⟨_, _, rfl⟩
  | num n => exact ⟨_, _, rfl⟩
  | str t => exact ⟨_, _, rfl⟩

/-- C10 witness: a top-level array and an object without a `messages` array. -/
theorem c10_witness :
    (∃ msg p, handleValidateTransaction (ascii "[]") =
      { valid := false, issues := [⟨.error, msg, p⟩] }) ∧
    (∃ msg p, handleValidateTransaction (ascii "\x7b\"messages\":5\x7d") =
      { valid := false, issues := [⟨.error, msg, p⟩] }) :=
  ⟨c10_shape_gate_single_error _ (.arr .nil) rfl (Or.inl rfl),
   c10_shape_gate_single_error _ (.obj (.cons (ascii "messages") (.num 5) .nil)) rfl
     (Or.inr (fun msgs h => by simp [getField, fieldsGet] at h))⟩

/-- The valid/issues relationship holds for every parsed document. -/
theorem handleParsed_valid_iff (j : Json) :
    (handleParsed j).valid = true ↔
      ∀ i ∈ (handleParsed j).issues, i.severity ≠ Severity.error := by
  cases j with
  | obj fs =>
    unfold handleParsed
    cases hg : getField (.obj fs) (ascii "messages") with
    | none => simp
    | some v =>
      cases v with
      | arr msgs => exact valid_flag_iff _
      | null => simp
      | bool b => simp
      | num n => simp
      | str t => simp
      | obj fs2 => simp
  | arr xs =>
    rw [show handleParsed (.arr xs) =
      { valid := false,
        issues := [⟨.error, ascii "Transaction must have a \"messages\" array",
          some (ascii "messages")⟩] } from rfl]
    simp
  | null => simp [handleParsed]
  | bool b => simp [handleParsed]
  | num n => simp [handleParsed]
  | str t => simp [handleParsed]

/-- C2: validation always returns a result; a parse failure yields
`valid = false` with exactly one error issue, and in every case the returned
`valid` flag is true exactly when no returned issue has severity `error`. -/
theorem c2_total_valid_iff_no_error (s : List Nat) :
    (parseJson s = none →
       handleValidateTransaction s =
         { valid := false, issues := [⟨.error, ascii "Invalid JSON", none⟩] }) ∧
    ((handleValidateTransaction s).valid = true ↔
       ∀ i ∈ (handleValidateTransaction s).issues, i.severity ≠ Severity.error) := by
  constructor
  · intro hp
    unfold handleValidateTransaction
    rw [hp]
  · unfold handleValidateTransaction
    cases hp : parseJson s with
    | none => simp
    | some j => exact handleParsed_valid_iff j

/-- C2 witness: a non-JSON input takes the parse-failure branch, and the
validity flag matches the absence of errors on a concrete valid document. -/
theorem c2_witness :
    (handleValidateTransaction (ascii "not json") =
      { valid := false, issues := [⟨.error, ascii "Invalid JSON", none⟩] }) ∧
    ((handleValidateTransaction (ascii "\x7b\"messages\":[]\x7d")).valid = true ↔
       ∀ i ∈ (handleValidateTransaction (ascii "\x7b\"messages\":[]\x7d")).issues,
         i.severity ≠ Severity.error) :=
  ⟨(c2_total_valid_iff_no_error (ascii "not json")).1 rfl,
   (c2_total_valid_iff_no_error (ascii "\x7b\"messages\":[]\x7d")).2⟩

/-- The Mint-override error produced for one approval. -/
def mintOverrideIssue (approvalPath : List Nat) : ValidationIssue :=
  ⟨.error, ascii "Mint approvals MUST have overridesFromOutgoingApprovals: true",
    some (approvalPath ++ ascii ".approvalCriteria.overridesFromOutgoingApprovals")⟩

theorem perApproval_mint_error (a : Json) (approvalPath : List Nat) (isSub : Bool)
    (c : Json)
    (hfrom : optIsStr (getField a (ascii "fromListId")) (ascii "Mint") = true)
    (hcrit : getField a (ascii "approvalCriteria") = some c)
    (hct : jsTruthy c = true)
    (hov : optIsTrue (getField c (ascii "overridesFromOutgoingApprovals")) = false) :
    mintOverrideIssue approvalPath ∈ perApprovalIssues a approvalPath isSub := by
  unfold perApprovalIssues
  refine List.mem_append.mpr (Or.inl ?_)
  refine List.mem_append.mpr (Or.inl ?_)
  refine List.mem_append.mpr (Or.inr ?_)
  simp only [hfrom, if_true]
  refine List.mem_append.mpr (Or.inl ?_)
  rw [hcrit]
  simp [hct, hov, mintOverrideIssue]

theorem validateApprovalsAux_mint_error :
    ∀ (l : JsonList) (idx0 : Nat) (path : List Nat) (isSub : Bool) (i : Nat) (a c : Json),
    (JsonList.toList l).get? i = some a →
    isObjJ a = true →
    optIsStr (getField a (ascii "fromListId")) (ascii "Mint") = true →
    getField a (ascii "approvalCriteria") = some c →
    jsTruthy c = true →
    optIsTrue (getField c (ascii "overridesFromOutgoingApprovals")) = false →
    mintOverrideIssue (path ++ brack (idx0 + i)) ∈ validateApprovalsAux l idx0 path isSub
  | .nil, idx0, path, isSub, i, a, c => by
    intro hget
    simp [JsonList.toList] at hget
  | .cons hd tl, idx0, path, isSub, i, a, c => by
    intro hget hobj hfrom hcrit hct hov
    cases i with
    | zero =>
      simp [JsonList.toList] at hget
      subst hget
      unfold validateApprovalsAux
      refine List.mem_append.mpr (Or.inl ?_)
      cases hd with
      | obj fs => exact perApproval_mint_error _ _ _ c hfrom hcrit hct hov
      | arr xs => simp [isObjJ] at hobj
      | null => simp [isObjJ] at hobj
      | bool b => simp [isObjJ] at hobj
      | num n => simp [isObjJ] at hobj
      | str t => simp [isObjJ] at hobj
    | succ i' =>
      simp only [JsonList.toList, List.get?_cons_succ] at hget
      unfold validateApprovalsAux
      refine List.mem_append.mpr (Or.inr ?_)
      have := validateApprovalsAux_mint_error tl (idx0 + 1) path isSub i' a c
        hget hobj hfrom hcrit hct hov
      have harith : idx0 + 1 + i' = idx0 + (i' + 1) := by omega
      rwa [harith] at this

/-- C4: an approval whose `fromListId` is the mint keyword and whose criteria
object does not set `overridesFromOutgoingApprovals` to `true` produces an
error naming that field; an otherwise rule-conforming such approval produces
exactly that one error. -/
theorem c4_mint_requires_override (approvals : JsonList) (path : List Nat)
    (standards : Option JsonList) (i : Nat) (a c : Json)
    (hget : (JsonList.toList approvals).get? i = some a)
    (hobj : isObjJ a = true)
    (hfrom : optIsStr (getField a (ascii "fromListId")) (ascii "Mint") = true)
    (hcrit : getField a (ascii "approvalCriteria") = some c)
    (hcobj : isObjJ c = true)
    (hov : optIsTrue (getField c (ascii "overridesFromOutgoingApprovals")) = false) :
    mintOverrideIssue (path ++ brack i) ∈ validateApprovals approvals path standards ∧
    validateApprovals
        (.cons (.obj (.cons (ascii "fromListId") (.str (ascii "Mint"))
          (.cons (ascii "approvalId") (.str (ascii "a"))
            (.cons (ascii "approvalCriteria") (.obj .nil) .nil)))) .nil) [] none =
      [mintOverrideIssue (brack 0)] := by
  constructor
  · have hct : jsTruthy c = true := by
      cases c with
      | obj fs => rfl
      | arr xs => simp [isObjJ] at hcobj
      | null => simp [isObjJ] at hcobj
      | bool b => simp [isObjJ] at hcobj
      | num n => simp [isObjJ] at hcobj
      | str t => simp [isObjJ] at hcobj
    have := validateApprovalsAux_mint_error approvals 0 path
      (match standards with
       | some l => jsonListContainsStr l (ascii "Subscriptions")
       | none => false) i a c hget hobj hfrom hcrit hct hov
    simpa [validateApprovals] using this
  · decide

/-- C4 witness. -/
theorem c4_witness :
    mintOverrideIssue ([] ++ brack 0) ∈
      validateApprovals
        (.cons (.obj (.cons (ascii "fromListId") (.str (ascii "Mint"))
          (.cons (ascii "approvalId") (.str (ascii "a"))
            (.cons (ascii "approvalCriteria") (.obj .nil) .nil)))) .nil) [] none :=
  (c4_mint_requires_override
    (.cons (.obj (.cons (ascii "fromListId") (.str (ascii "Mint"))
      (.cons (ascii "approvalId") (.str (ascii "a"))
        (.cons (ascii "approvalCriteria") (.obj .nil) .nil)))) .nil)
    [] none 0
    (.obj (.cons (ascii "fromListId") (.str (ascii "Mint"))
      (.cons (ascii "approvalId") (.str (ascii "a"))
        (.cons (ascii "approvalCriteria") (.obj .nil) .nil))))
    (.obj .nil) rfl rfl (by decide) rfl rfl rfl).1

/-- C1 counterexample: the backed-by-external-asset derivation does not use a
single derivation key `0x12 || utf8(d)`; it uses two keys, and at `d = "x"`
the derived digest differs from
`H("module", utf8("tokenization") || 0x00 || 0x12 || utf8("x"))`. -/
theorem c1_counterexample :
    getAliasDerivationKeysForIBCBackedDenom (ascii "x") ≠ [18 :: ascii "x"] ∧
    ModuleAddr (ascii "tokenization") (getAliasDerivationKeysForIBCBackedDenom (ascii "x")) ≠
      some (HashFn (ascii "module") (ascii "tokenization" ++ [0] ++ (18 :: ascii "x"))) := by
  constructor
  · decide
  · decide

/-- C1 (amended): the derivation uses two keys, the tag byte `[0x12]` and the
raw UTF-8 bytes of the denomination; the digest is the seed
`H("module", utf8("tokenization") || 0x00 || 0x12)` folded once through
`Derive` with the denomination bytes, which re-applies `H` with the seed
bytes as the tag: `digest = H(seed, utf8(d)) = SHA-256(SHA-256(seed) || utf8(d))`,
where `H(tag, payload) = SHA-256(SHA-256(tag) || payload)`. -/
theorem c1_two_key_derivation (d : List Nat) :
    getAliasDerivationKeysForIBCBackedDenom d = [[18], d] ∧
    ModuleAddr (ascii "tokenization") (getAliasDerivationKeysForIBCBackedDenom d) =
      some (Derive (HashFn (ascii "module") (ascii "tokenization" ++ [0] ++ [18])) d) :=
  ⟨rfl, rfl⟩


theorem toHex_length : ∀ l : List Nat, (toHex l).length = 2 * l.length
  | [] => rfl
  | b :: rest => by
    simp [toHex, toHex_length rest]
    omega

theorem shaMerge_length (hs : List Nat) (st : Nat × Nat × Nat × Nat × Nat × Nat × Nat × Nat) :
    (shaMerge hs st).length = 8 := by
  rcases st with ⟨a, b, c, d, e, f, g, h⟩
  rfl

theorem shaBlocks_length : ∀ (fuel : Nat) (hs p : List Nat), hs.length = 8 →
    (shaBlocks fuel hs p).length = 8
  | 0, hs, p => fun h => h
  | fe + 1, hs, p => by
    intro h
    unfold shaBlocks
    cases p with
    | nil => exact h
    | cons a l => exact shaBlocks_length fe _ _ (shaMerge_length hs _)

theorem flatten_be32_length : ∀ l : List Nat, ((l.map be32).flatten).length = 4 * l.length
  | [] => rfl
  | x :: rest => by
    simp [be32, flatten_be32_length rest]
    omega

theorem sha256_length (m : List Nat) : (sha256 m).length = 32 := by
  unfold sha256
  rw [flatten_be32_length, shaBlocks_length _ _ _ (by rfl)]

theorem hexDecode_length : ∀ l : List Nat, (hexDecode l).length = l.length / 2
  | [] => by simp [hexDecode]
  | [c] => by simp [hexDecode]
  | c1 :: c2 :: rest => by
    first
      | (simp [hexDecode, hexDecode_length rest]; omega)
      | simp [hexDecode, hexDecode_length rest]

theorem emit5_length : ∀ (b v : Nat), (emit5 v b).length = b / 5
  | b + 5, v => by
    first
      | (simp [emit5, emit5_length b v]; omega)
      | simp [emit5, emit5_length b v]
  | 0, _ => rfl
  | 1, _ => rfl
  | 2, _ => by rfl
  | 3, _ => rfl
  | 4, _ => rfl

theorem conv85_length : ∀ (l : List Nat) (v bits : Nat), bits < 5 →
    (conv85 l v bits).length = (8 * l.length + bits + 4) / 5
  | [], v, bits => by
    intro h
    unfold conv85
    split_ifs <;> first | (simp; omega) | simp
  | d :: rest, v, bits => by
    intro h
    unfold conv85
    rw [List.length_append, emit5_length, conv85_length rest _ ((bits + 8) % 5) (by omega)]
    simp only [List.length_cons]
    omega

theorem and_two_pow_sub_one (x n : Nat) : x &&& (2 ^ n - 1) = x % 2 ^ n := by
  apply Nat.eq_of_testBit_eq
  intro i
  rw [Nat.testBit_land, Nat.testBit_two_pow_sub_one, Nat.testBit_mod_two_pow]
  exact Bool.and_comm _ _

theorem and31_eq (x : Nat) : x &&& 31 = x % 32 := and_two_pow_sub_one x 5

theorem and255_eq (x : Nat) : x &&& 255 = x % 256 := and_two_pow_sub_one x 8

theorem emit5_lt : ∀ (b v x : Nat), x ∈ emit5 v b → x < 32
  | b + 5, v, x => by
    simp only [emit5, List.mem_cons]
    rintro (rfl | h)
    · rw [and31_eq]; omega
    · exact emit5_lt b v x h
  | 0, _, _ => by simp [emit5]
  | 1, _, _ => by simp [emit5]
  | 2, _, _ => by simp [emit5]
  | 3, _, _ => by simp [emit5]
  | 4, _, _ => by simp [emit5]

theorem conv85_lt : ∀ (l : List Nat) (v bits x : Nat), x ∈ conv85 l v bits → x < 32
  | [], v, bits, x => by
    unfold conv85
    split_ifs <;> simp
    rw [and31_eq]; omega
  | d :: rest, v, bits, x => by
    unfold conv85
    rw [List.mem_append]
    rintro (h | h)
    · exact emit5_lt _ _ _ h
    · exact conv85_lt rest _ _ x h

/-- `bech32.encode` succeeds and produces prefix, separator, data characters
and six checksum characters whenever the inputs are in range. -/
theorem bech32Encode_isSome (hrp ws : List Nat) (chk0 : Nat)
    (hlen : hrp.length + 7 + ws.length ≤ 90)
    (hchk : bech32HrpChk (toLowerList hrp) = some chk0)
    (hws : ∀ x ∈ ws, x < 32) :
    bech32Encode hrp ws =
      some (toLowerList hrp ++ 49 :: ws.map bech32CharAt ++
        (bech32ChkWords (polymodStep6
          (ws.foldl (fun chk x => polymodStep chk ^^^ x) chk0) ^^^ 1)).map bech32CharAt) := by
  unfold bech32Encode
  rw [if_neg (by omega)]
  simp only [hchk]
  rw [if_neg ?any]
  case any =>
    simp only [List.any_eq_true, decide_eq_true_eq, not_exists, not_and, Decidable.not_not]
    intro x hx
    have hlt := hws x hx
    rw [Nat.shiftRight_eq_div_pow]
    omega

/-- The alias generator never fails: the derivation key list is non-empty and
the bech32 encoding of the 32-byte digest always fits the length limit. -/
theorem generateAliasIBC_isSome (d : List Nat) :
    ∃ a, generateAliasAddressForIBCBackedDenom d = some a := by
  have hdlen : (hexDecode (Derive (HashFn (ascii "module")
      (ascii "tokenization" ++ [0] ++ [BackedPathGenerationPrefixByte])) d)).length = 32 := by
    rw [hexDecode_length]
    unfold Derive HashFn
    rw [toHex_length, sha256_length]
  have hwlen : (toWordsB (hexDecode (Derive (HashFn (ascii "module")
      (ascii "tokenization" ++ [0] ++ [BackedPathGenerationPrefixByte])) d))).length = 52 := by
    unfold toWordsB
    rw [conv85_length _ 0 0 (by omega), hdlen]
  have henc := bech32Encode_isSome (ascii "bb")
    (toWordsB (hexDecode (Derive (HashFn (ascii "module")
      (ascii "tokenization" ++ [0] ++ [BackedPathGenerationPrefixByte])) d)))
    36798530
    (by rw [hwlen]; decide)
    (by decide)
    (fun x hx => conv85_lt _ _ _ x hx)
  exact ⟨_, henc⟩


theorem registryStep_nonIbc (m : List (List Nat × TokenInfo)) (bd : List Nat) (cd : CoinDetails)
    (h : startsWithL (ascii "ibc/") bd = false) :
    registryStep m (bd, cd) = m := by
  simp [registryStep, h]

theorem registryStep_ibc (m : List (List Nat × TokenInfo)) (bd : List Nat) (cd : CoinDetails)
    (a : List Nat)
    (hibc : startsWithL (ascii "ibc/") bd = true)
    (hcont : (m.map Prod.fst).contains (toUpperList cd.symbol) = false)
    (hgen : generateAliasAddressForIBCBackedDenom bd = some a) :
    registryStep m (bd, cd) = m ++ [(toUpperList cd.symbol,
      { symbol := toUpperList cd.symbol, ibcDenom := bd, decimals := cd.decimals,
        backingAddress := a, displayName := cd.label })] := by
  simp only [registryStep]
  rw [hgen, if_pos hibc, if_neg (by rw [hcont]; simp)]

/-- The statically built map memoizes exactly the three pre-seeded IBC
entries, keyed by their upper-cased symbols. -/
theorem builtSymbolMap_keys :
    builtSymbolMap.map Prod.fst = [ascii "USDC", ascii "ATOM", ascii "OSMO"] := by
  obtain ⟨a1, h1⟩ := generateAliasIBC_isSome
    (ascii "ibc/F082B65C88E4B6D5EF1DB243CDA1D331D002759E938A0F5CD3FFDC5D53B3E349")
  obtain ⟨a2, h2⟩ := generateAliasIBC_isSome
    (ascii "ibc/A4DB47A9D3CF9A068D454513891B526702455D3EF08FB9EB558C561F9DC2B701")
  obtain ⟨a3, h3⟩ := generateAliasIBC_isSome
    (ascii "ibc/ED07A3391A112B175915CD8FAF43A2DA8E4790EDE12566649D0C2F97716B8518")
  unfold builtSymbolMap MAINNET_COINS_REGISTRY
  simp only [List.foldl]
  rw [registryStep_nonIbc _ (ascii "ubadge") _ (by decide)]
  rw [registryStep_nonIbc _ (ascii "badges:49:chaosnet") _ (by decide)]
  rw [registryStep_ibc _
    (ascii "ibc/F082B65C88E4B6D5EF1DB243CDA1D331D002759E938A0F5CD3FFDC5D53B3E349") _ a1
    (by decide) (by decide) h1]
  rw [registryStep_ibc _
    (ascii "ibc/A4DB47A9D3CF9A068D454513891B526702455D3EF08FB9EB558C561F9DC2B701") _ a2
    (by decide) (by simp [List.map_append]; decide) h2]
  rw [registryStep_ibc _
    (ascii "ibc/ED07A3391A112B175915CD8FAF43A2DA8E4790EDE12566649D0C2F97716B8518") _ a3
    (by decide) (by simp [List.map_append]; decide) h3]
  simp [List.map_append]
  decide

/-- C8: a query matching no pre-seeded symbol and no canonical identifier but
carrying the `ibc/` prefix yields a synthetic descriptor (decimal exponent
`6`, `UNKNOWN` symbol, the `Unknown IBC Token` label) whose backing address
is derived on the fly; the memoized table after the lookup is exactly the
built table, which stores only the pre-seeded entries (keys `USDC`, `ATOM`,
`OSMO`). -/
theorem c8_unknown_ibc_synthetic (query : List Nat)
    (cache : Option (List (List Nat × TokenInfo)))
    (hsym : mapGet (cacheMap cache) (toUpperList query) = none)
    (hden : findByDenom (cacheMap cache) (toLowerList query) = none)
    (hibc : startsWithL (ascii "ibc/") query = true) :
    ∃ addr, generateAliasAddressForIBCBackedDenom query = some addr ∧
      lookupTokenInfo query cache =
        (some { symbol := ascii "UNKNOWN", ibcDenom := query, decimals := ascii "6",
                backingAddress := addr, displayName := ascii "Unknown IBC Token" },
         some (cacheMap cache)) ∧
      builtSymbolMap.map Prod.fst = [ascii "USDC", ascii "ATOM", ascii "OSMO"] := by
  obtain ⟨addr, haddr⟩ := generateAliasIBC_isSome query
  refine ⟨addr, haddr, ?_, builtSymbolMap_keys⟩
  unfold lookupTokenInfo buildSymbolToTokenInfoMap
  simp only [hsym, hden, hibc, haddr, if_true]

/-- C8 witness: an unknown `ibc/` query against a warm empty cache. -/
theorem c8_witness :
    ∃ addr, generateAliasAddressForIBCBackedDenom (ascii "ibc/ZZZZ") = some addr ∧
      lookupTokenInfo (ascii "ibc/ZZZZ") (some []) =
        (some { symbol := ascii "UNKNOWN", ibcDenom := ascii "ibc/ZZZZ", decimals := ascii "6",
                backingAddress := addr, displayName := ascii "Unknown IBC Token" },
         some (cacheMap (some []))) ∧
      builtSymbolMap.map Prod.fst = [ascii "USDC", ascii "ATOM", ascii "OSMO"] :=
  c8_unknown_ibc_synthetic (ascii "ibc/ZZZZ") (some []) rfl rfl (by decide)

/-- C7: converting to the 0x format reports an error (never truncates)
whenever the input matches neither address convention, and whenever the
input is a bech32 address whose decoded payload is not exactly 20 bytes. -/
theorem c7_toEthAddress_fails (address : List Nat) :
    (startsWithL (ascii "0x") address = false →
       startsWithL (ascii "bb1") address = false →
       ∃ e, toEthAddress address = .error e) ∧
    (∀ hrp words bytes, startsWithL (ascii "bb1") address = true →
       bech32Decode address = some (hrp, words) →
       fromWordsB words = some bytes →
       bytes.length ≠ 20 →
       ∃ e, toEthAddress address = .error e) := by
  constructor
  · intro h0 hb
    unfold toEthAddress
    rw [h0, hb]
    exact ⟨_, rfl⟩
  · intro hrp words bytes hb hdec hfw hlen
    have h0 : startsWithL (ascii "0x") address = false := by
      cases address with
      | nil => simp [ascii, startsWithL] at hb
      | cons c cs =>
        have hc : 98 = c := by
          have := hb
          simp [ascii, startsWithL] at this
          exact this.1
        simp [ascii, startsWithL, ← hc]
    unfold toEthAddress
    rw [h0, hb]
    unfold cosmosToEth
    rw [hb]
    simp only [Bool.true_eq_false, not_false_eq_true, if_false, ite_false, hdec, hfw]
    rw [if_pos hlen]
    exact ⟨_, rfl⟩

/-- C7 witness: an unrecognised string, and a 32-byte module-derived
address. -/
theorem c7_witness :
    (∃ e, toEthAddress (ascii "xyz") = .error e) ∧
    (∃ e, toEthAddress
      (ascii "bb1qqqqqqqqqqqqqqqqqqqqqqqqqqqqqqqqqqqqqqqqqqqqqqqqqqqqzewl2d") = .error e) :=
  ⟨(c7_toEthAddress_fails (ascii "xyz")).1 (by decide) (by decide),
   (c7_toEthAddress_fails
      (ascii "bb1qqqqqqqqqqqqqqqqqqqqqqqqqqqqqqqqqqqqqqqqqqqqqqqqqqqqzewl2d")).2
     (ascii "bb") (List.replicate 52 0) (List.replicate 32 0)
     (by decide) (by decide) (by decide) (by decide)⟩

/- ### 5-bit/8-bit conversion round-trips -/


theorem lor_disjoint (a b n : Nat) (h : b < 2 ^ n) : (a <<< n) ||| b = (a <<< n) + b := by
  have key : a <<< n + b = 2 ^ n * a + b := by rw [Nat.shiftLeft_eq]; ring
  rw [key]
  apply Nat.eq_of_testBit_eq
  intro i
  rw [Nat.testBit_lor, Nat.testBit_shiftLeft, Nat.testBit_mul_pow_two_add a h i]
  rcases lt_or_ge i n with hi | hi
  · simp [Nat.not_le.mpr hi, hi]
  · have hb : b.testBit i = false := Nat.testBit_eq_false_of_lt (lt_of_lt_of_le h (Nat.pow_le_pow_right (by omega) hi))
    simp [hi, Nat.le_of_lt, hb, if_neg (Nat.not_lt.mpr hi)]

theorem orD8 (a b : Nat) (h : b < 256) : (a <<< 8) ||| b = a * 256 + b := by
  rw [lor_disjoint a b 8 (by omega), Nat.shiftLeft_eq]

theorem orD5 (a b : Nat) (h : b < 32) : (a <<< 5) ||| b = a * 32 + b := by
  rw [lor_disjoint a b 5 (by omega), Nat.shiftLeft_eq]

theorem conv85_chunk (v b0 b1 b2 b3 b4 : Nat) (rest : List Nat)
    (h0 : b0 < 256) (h1 : b1 < 256) (h2 : b2 < 256) (h3 : b3 < 256) (h4 : b4 < 256) :
    conv85 (b0 :: b1 :: b2 :: b3 :: b4 :: rest) v 0 =
      b0 / 8 :: (b0 % 8 * 4 + b1 / 64) :: (b1 / 2 % 32) :: (b1 % 2 * 16 + b2 / 16) ::
      (b2 % 16 * 2 + b3 / 128) :: (b3 / 4 % 32) :: (b3 % 4 * 8 + b4 / 32) :: (b4 % 32) ::
      conv85 rest ((((v * 256 + b0) * 256 + b1) * 256 + b2) * 256 * 256 + b3 * 256 + b4) 0 := by
  simp only [conv85, emit5]
  simp only [orD8 _ _ h0, orD8 _ _ h1, orD8 _ _ h2, orD8 _ _ h3, orD8 _ _ h4]
  simp only [Nat.shiftRight_eq_div_pow, and31_eq]
  norm_num
  refine ⟨by omega, by omega, by omega, by omega, by omega, by omega, by omega, by omega, ?_⟩
  congr 1
  omega

theorem conv58_chunk (v w0 w1 w2 w3 w4 w5 w6 w7 : Nat) (restW : List Nat)
    (h0 : w0 < 32) (h1 : w1 < 32) (h2 : w2 < 32) (h3 : w3 < 32)
    (h4 : w4 < 32) (h5 : w5 < 32) (h6 : w6 < 32) (h7 : w7 < 32) :
    conv58 (w0 :: w1 :: w2 :: w3 :: w4 :: w5 :: w6 :: w7 :: restW) v 0 =
      (conv58 restW ((((((((v * 32 + w0) * 32 + w1) * 32 + w2) * 32 + w3) * 32 + w4) * 32 + w5) *
          32 + w6) * 32 + w7) 0).map
        (fun out => (w0 * 8 + w1 / 4) :: (w1 % 4 * 64 + w2 * 2 + w3 / 16) ::
          (w3 % 16 * 16 + w4 / 2) :: (w4 % 2 * 128 + w5 * 4 + w6 / 8) ::
          (w6 % 8 * 32 + w7) :: out) := by
  simp only [conv58, emit8]
  simp only [orD5 _ _ h0, orD5 _ _ h1, orD5 _ _ h2, orD5 _ _ h3, orD5 _ _ h4,
    orD5 _ _ h5, orD5 _ _ h6, orD5 _ _ h7]
  simp only [Nat.shiftRight_eq_div_pow, and255_eq]
  rcases hrest : conv58 restW ((((((((v * 32 + w0) * 32 + w1) * 32 + w2) * 32 + w3) * 32 + w4) *
      32 + w5) * 32 + w6) * 32 + w7) 0 with _ | out
  · rfl
  · simp only [Option.map_some, List.nil_append, List.singleton_append]
    refine congrArg some ?_
    simp only [show (2:Nat) ^ 2 = 4 from rfl, show (2:Nat) ^ 4 = 16 from rfl,
      show (2:Nat) ^ 1 = 2 from rfl, show (2:Nat) ^ 3 = 8 from rfl,
      show (2:Nat) ^ 0 = 1 from rfl]
    refine List.cons_eq_cons.mpr ⟨by omega, ?_⟩
    refine List.cons_eq_cons.mpr ⟨by omega, ?_⟩
    refine List.cons_eq_cons.mpr ⟨by omega, ?_⟩
    refine List.cons_eq_cons.mpr ⟨by omega, ?_⟩
    refine List.cons_eq_cons.mpr ⟨by omega, rfl⟩

theorem shl8_and255 (v : Nat) : (v <<< 8) &&& 255 = 0 := by
  rw [and255_eq, Nat.shiftLeft_eq]
  simp [Nat.mul_mod_left]

theorem conv58_nil (v : Nat) : conv58 [] v 0 = some [] := by
  unfold conv58
  rw [if_neg (by omega), if_neg (by simp [shl8_and255])]

theorem conv_roundtrip_85 : ∀ (n : Nat) (bytes : List Nat), bytes.length = 5 * n →
    (∀ b ∈ bytes, b < 256) → ∀ v v', conv58 (conv85 bytes v 0) v' 0 = some bytes := by
  intro n
  induction n with
  | zero =>
    intro bytes hlen _ v v'
    rw [Nat.mul_zero, List.length_eq_zero] at hlen
    subst hlen
    rw [show conv85 [] v 0 = [] from rfl, conv58_nil]
  | succ n ih =>
    intro bytes hlen hlt v v'
    rcases bytes with _ | ⟨b0, bytes⟩; · simp only [List.length_nil, List.length_cons] at hlen; omega
    rcases bytes with _ | ⟨b1, bytes⟩; · simp only [List.length_nil, List.length_cons] at hlen; omega
    rcases bytes with _ | ⟨b2, bytes⟩; · simp only [List.length_nil, List.length_cons] at hlen; omega
    rcases bytes with _ | ⟨b3, bytes⟩; · simp only [List.length_nil, List.length_cons] at hlen; omega
    rcases bytes with _ | ⟨b4, rest⟩; · simp only [List.length_nil, List.length_cons] at hlen; omega
    have h0 : b0 < 256 := hlt _ (by simp)
    have h1 : b1 < 256 := hlt _ (by simp)
    have h2 : b2 < 256 := hlt _ (by simp)
    have h3 : b3 < 256 := hlt _ (by simp)
    have h4 : b4 < 256 := hlt _ (by simp)
    rw [conv85_chunk v b0 b1 b2 b3 b4 rest h0 h1 h2 h3 h4]
    rw [conv58_chunk _ _ _ _ _ _ _ _ _ _ (by omega) (by omega) (by omega) (by omega)
      (by omega) (by omega) (by omega) (by omega)]
    rw [ih rest (by simp only [List.length_cons] at hlen; omega)
      (fun b hb => hlt b (by simp [hb])) _ _]
    simp only [Option.map_some']
    refine congrArg some ?_
    refine List.cons_eq_cons.mpr ⟨by omega, ?_⟩
    refine List.cons_eq_cons.mpr ⟨by omega, ?_⟩
    refine List.cons_eq_cons.mpr ⟨by omega, ?_⟩
    refine List.cons_eq_cons.mpr ⟨by omega, ?_⟩
    refine List.cons_eq_cons.mpr ⟨by omega, rfl⟩

theorem conv_roundtrip_58 : ∀ (n : Nat) (ws : List Nat), ws.length = 8 * n →
    (∀ w ∈ ws, w < 32) → ∀ v,
    ∃ bytes, conv58 ws v 0 = some bytes ∧ (∀ v', conv85 bytes v' 0 = ws) ∧
      bytes.length = 5 * n ∧ (∀ b ∈ bytes, b < 256) := by
  intro n
  induction n with
  | zero =>
    intro ws hlen _ v
    rw [Nat.mul_zero, List.length_eq_zero] at hlen
    subst hlen
    exact ⟨[], conv58_nil v, fun v' => rfl, rfl, by simp⟩
  | succ n ih =>
    intro ws hlen hlt v
    rcases ws with _ | ⟨w0, ws⟩; · simp only [List.length_nil, List.length_cons] at hlen; omega
    rcases ws with _ | ⟨w1, ws⟩; · simp only [List.length_nil, List.length_cons] at hlen; omega
    rcases ws with _ | ⟨w2, ws⟩; · simp only [List.length_nil, List.length_cons] at hlen; omega
    rcases ws with _ | ⟨w3, ws⟩; · simp only [List.length_nil, List.length_cons] at hlen; omega
    rcases ws with _ | ⟨w4, ws⟩; · simp only [List.length_nil, List.length_cons] at hlen; omega
    rcases ws with _ | ⟨w5, ws⟩; · simp only [List.length_nil, List.length_cons] at hlen; omega
    rcases ws with _ | ⟨w6, ws⟩; · simp only [List.length_nil, List.length_cons] at hlen; omega
    rcases ws with _ | ⟨w7, restW⟩; · simp only [List.length_nil, List.length_cons] at hlen; omega
    have h0 : w0 < 32 := hlt _ (by simp)
    have h1 : w1 < 32 := hlt _ (by simp)
    have h2 : w2 < 32 := hlt _ (by simp)
    have h3 : w3 < 32 := hlt _ (by simp)
    have h4 : w4 < 32 := hlt _ (by simp)
    have h5 : w5 < 32 := hlt _ (by simp)
    have h6 : w6 < 32 := hlt _ (by simp)
    have h7 : w7 < 32 := hlt _ (by simp)
    obtain ⟨bytesR, hbr, hconv, hblen, hblt⟩ := ih restW
      (by simp only [List.length_cons] at hlen; omega)
      (fun w hw => hlt w (by simp [hw]))
      ((((((((v * 32 + w0) * 32 + w1) * 32 + w2) * 32 + w3) * 32 + w4) * 32 + w5) * 32 + w6) *
        32 + w7)
    refine ⟨(w0 * 8 + w1 / 4) :: (w1 % 4 * 64 + w2 * 2 + w3 / 16) ::
      (w3 % 16 * 16 + w4 / 2) :: (w4 % 2 * 128 + w5 * 4 + w6 / 8) ::
      (w6 % 8 * 32 + w7) :: bytesR, ?_, ?_, ?_, ?_⟩
    · rw [conv58_chunk v w0 w1 w2 w3 w4 w5 w6 w7 restW h0 h1 h2 h3 h4 h5 h6 h7, hbr]
      rfl
    · intro v'
      rw [conv85_chunk v' _ _ _ _ _ bytesR (by omega) (by omega) (by omega) (by omega) (by omega)]
      rw [hconv]
      refine List.cons_eq_cons.mpr ⟨by omega, ?_⟩
      refine List.cons_eq_cons.mpr ⟨by omega, ?_⟩
      refine List.cons_eq_cons.mpr ⟨by omega, ?_⟩
      refine List.cons_eq_cons.mpr ⟨by omega, ?_⟩
      refine List.cons_eq_cons.mpr ⟨by omega, ?_⟩
      refine List.cons_eq_cons.mpr ⟨by omega, ?_⟩
      refine List.cons_eq_cons.mpr ⟨by omega, ?_⟩
      refine List.cons_eq_cons.mpr ⟨by omega, rfl⟩
    · simp only [List.length_cons, hblen]; omega
    · intro b hb
      simp only [List.mem_cons] at hb
      rcases hb with rfl | rfl | rfl | rfl | rfl | hb
      · omega
      · omega
      · omega
      · omega
      · omega
      · exact hblt b hb

theorem emit8_length : ∀ (b v : Nat), (emit8 v b).length = b / 8
  | b + 8, v => by
    first
      | simp [emit8, emit8_length b v]
      | (simp [emit8, emit8_length b v]; omega)
  | 0, _ => rfl
  | 1, _ => rfl
  | 2, _ => by rfl
  | 3, _ => rfl
  | 4, _ => rfl
  | 5, _ => by rfl
  | 6, _ => rfl
  | 7, _ => rfl

theorem conv58_length : ∀ (ws : List Nat) (v bits : Nat) (out : List Nat), bits < 8 →
    conv58 ws v bits = some out →
    8 * out.length ≤ bits + 5 * ws.length ∧ bits + 5 * ws.length < 8 * out.length + 5
  | [], v, bits, out => by
    intro hb h
    unfold conv58 at h
    split_ifs at h with h1 h2
    · simp only [List.length_nil]
      have : out = [] := by cases h; rfl
      subst this
      simp only [List.length_nil]
      omega
  | d :: rest, v, bits, out => by
    intro hb h
    unfold conv58 at h
    rw [Option.map_eq_some'] at h
    obtain ⟨outR, hR, hout⟩ := h
    have ih := conv58_length rest ((v <<< 5) ||| d) ((bits + 5) % 8) outR (by omega) hR
    subst hout
    rw [List.length_append, emit8_length]
    simp only [List.length_cons]
    omega

/- ### BCH checksum algebra -/


theorem xor_mod_two_pow (a b n : Nat) : (a ^^^ b) % 2 ^ n = a % 2 ^ n ^^^ b % 2 ^ n := by
  apply Nat.eq_of_testBit_eq
  intro i
  simp only [Nat.testBit_mod_two_pow, Nat.testBit_xor]
  cases Nat.decLt i n with
  | isTrue h => simp [h]
  | isFalse h => simp [h]

theorem xor_shiftRight_high (x c n : Nat) (hc : c < 2 ^ n) : (x ^^^ c) >>> n = x >>> n := by
  apply Nat.eq_of_testBit_eq
  intro i
  simp only [Nat.testBit_shiftRight, Nat.testBit_xor]
  have : c.testBit (n + i) = false :=
    Nat.testBit_eq_false_of_lt (lt_of_lt_of_le hc (Nat.pow_le_pow_right (by omega) (by omega)))
  simp [this]

theorem xor_shiftLeft (a b n : Nat) : (a ^^^ b) <<< n = a <<< n ^^^ b <<< n := by
  apply Nat.eq_of_testBit_eq
  intro i
  simp only [Nat.testBit_shiftLeft, Nat.testBit_xor]
  cases Nat.decLe n i with
  | isTrue h => simp [h]
  | isFalse h => simp [h]

theorem xor_lcomm (a b c : Nat) : a ^^^ (b ^^^ c) = b ^^^ (a ^^^ c) := by
  rw [← Nat.xor_assoc, Nat.xor_comm a b, Nat.xor_assoc]

theorem polymodStep_xor (x c : Nat) (hc : c < 33554432) :
    polymodStep (x ^^^ c) = polymodStep x ^^^ c * 32 := by
  unfold polymodStep
  rw [show (33554432 : Nat) = 2 ^ 25 from rfl]
  rw [xor_mod_two_pow, Nat.mod_eq_of_lt (show c < 2 ^ 25 from hc)]
  rw [xor_shiftRight_high x c 25 hc, xor_shiftLeft]
  rw [show c <<< 5 = c * 32 from by rw [Nat.shiftLeft_eq]]
  simp only [Nat.xor_assoc, Nat.xor_comm, xor_lcomm]

theorem xor_disjoint (a b n : Nat) (h : b < 2 ^ n) : (a <<< n) ^^^ b = (a <<< n) + b := by
  have key : a <<< n + b = 2 ^ n * a + b := by rw [Nat.shiftLeft_eq]; ring
  rw [key]
  apply Nat.eq_of_testBit_eq
  intro i
  rw [Nat.testBit_xor, Nat.testBit_shiftLeft, Nat.testBit_mul_pow_two_add a h i]
  rcases lt_or_ge i n with hi | hi
  · simp [Nat.not_le.mpr hi, hi]
  · have hb : b.testBit i = false := Nat.testBit_eq_false_of_lt
      (lt_of_lt_of_le h (Nat.pow_le_pow_right (by omega) hi))
    simp [hi, Nat.le_of_lt, hb, if_neg (Nat.not_lt.mpr hi)]

theorem xor_mul_disjoint (a b n : Nat) (h : b < 2 ^ n) : a * 2 ^ n ^^^ b = a * 2 ^ n + b := by
  rw [← Nat.shiftLeft_eq]
  exact xor_disjoint a b n h

theorem xorM5 (a b : Nat) (h : b < 32) : a * 32 ^^^ b = a * 32 + b :=
  xor_mul_disjoint a b 5 h

theorem xorM10 (a b : Nat) (h : b < 1024) : a * 1024 ^^^ b = a * 1024 + b :=
  xor_mul_disjoint a b 10 h

theorem xorM15 (a b : Nat) (h : b < 32768) : a * 32768 ^^^ b = a * 32768 + b :=
  xor_mul_disjoint a b 15 h

theorem xorM20 (a b : Nat) (h : b < 1048576) : a * 1048576 ^^^ b = a * 1048576 + b :=
  xor_mul_disjoint a b 20 h

theorem xorM25 (a b : Nat) (h : b < 33554432) : a * 33554432 ^^^ b = a * 33554432 + b :=
  xor_mul_disjoint a b 25 h

theorem chk_fold6 (chk c0 c1 c2 c3 c4 c5 : Nat)
    (h0 : c0 < 32) (h1 : c1 < 32) (h2 : c2 < 32) (h3 : c3 < 32) (h4 : c4 < 32) (h5 : c5 < 32) :
    List.foldl (fun c v => polymodStep c ^^^ v) chk [c0, c1, c2, c3, c4, c5] =
      polymodStep6 chk ^^^
        (c0 * 33554432 + (c1 * 1048576 + (c2 * 32768 + (c3 * 1024 + (c4 * 32 + c5))))) := by
  have b0a : c0 < 33554432 := by omega
  have b0b : c0 * 32 < 33554432 := by omega
  have b0c : c0 * 32 * 32 < 33554432 := by omega
  have b0d : c0 * 32 * 32 * 32 < 33554432 := by omega
  have b0e : c0 * 32 * 32 * 32 * 32 < 33554432 := by omega
  have b1a : c1 < 33554432 := by omega
  have b1b : c1 * 32 < 33554432 := by omega
  have b1c : c1 * 32 * 32 < 33554432 := by omega
  have b1d : c1 * 32 * 32 * 32 < 33554432 := by omega
  have b2a : c2 < 33554432 := by omega
  have b2b : c2 * 32 < 33554432 := by omega
  have b2c : c2 * 32 * 32 < 33554432 := by omega
  have b3a : c3 < 33554432 := by omega
  have b3b : c3 * 32 < 33554432 := by omega
  have b4a : c4 < 33554432 := by omega
  simp only [List.foldl]
  rw [polymodStep_xor _ _ b0a, polymodStep_xor _ _ b1a, polymodStep_xor _ _ b0b,
    polymodStep_xor _ _ b2a, polymodStep_xor _ _ b1b, polymodStep_xor _ _ b0c,
    polymodStep_xor _ _ b3a, polymodStep_xor _ _ b2b, polymodStep_xor _ _ b1c,
    polymodStep_xor _ _ b0d, polymodStep_xor _ _ b4a, polymodStep_xor _ _ b3b,
    polymodStep_xor _ _ b2c, polymodStep_xor _ _ b1d, polymodStep_xor _ _ b0e]
  rw [show c0 * 32 * 32 * 32 * 32 * 32 = c0 * 33554432 from by ring,
    show c1 * 32 * 32 * 32 * 32 = c1 * 1048576 from by ring,
    show c2 * 32 * 32 * 32 = c2 * 32768 from by ring,
    show c3 * 32 * 32 = c3 * 1024 from by ring]
  simp only [Nat.xor_assoc]
  rw [xorM5 c4 c5 (by omega)]
  rw [xorM10 c3 _ (by omega)]
  rw [xorM15 c2 _ (by omega)]
  rw [xorM20 c1 _ (by omega)]
  rw [xorM25 c0 _ (by omega)]
  show polymodStep (polymodStep (polymodStep (polymodStep (polymodStep (polymodStep chk))))) ^^^ _ =
    polymodStep6 chk ^^^ _
  rw [polymodStep6]

theorem and31_lt (x : Nat) : x &&& 31 < 32 := by
  rw [and31_eq]; omega

theorem polymodStep_lt (x : Nat) : polymodStep x < 1073741824 := by
  unfold polymodStep
  rw [show (1073741824 : Nat) = 2 ^ 30 from rfl]
  have h1 : (x % 33554432) <<< 5 < 2 ^ 30 := by
    rw [Nat.shiftLeft_eq]
    have := Nat.mod_lt x (show 0 < 33554432 by omega)
    norm_num
    omega
  refine Nat.xor_lt_two_pow (Nat.xor_lt_two_pow (Nat.xor_lt_two_pow (Nat.xor_lt_two_pow
    (Nat.xor_lt_two_pow h1 ?_) ?_) ?_) ?_) ?_ <;> split_ifs <;> norm_num

theorem chk_fold_chkWords (chk1 : Nat) :
    List.foldl (fun c v => polymodStep c ^^^ v) chk1
      (bech32ChkWords (polymodStep6 chk1 ^^^ 1)) = 1 := by
  have hlt : polymodStep6 chk1 ^^^ 1 < 1073741824 := by
    have h6 : polymodStep6 chk1 < 1073741824 := polymodStep_lt _
    rw [show (1073741824 : Nat) = 2 ^ 30 from rfl] at h6 ⊢
    exact Nat.xor_lt_two_pow h6 (by norm_num)
  unfold bech32ChkWords
  rw [chk_fold6 _ _ _ _ _ _ _ (and31_lt _) (and31_lt _) (and31_lt _) (and31_lt _)
    (and31_lt _) (and31_lt _)]
  have hsum : ((polymodStep6 chk1 ^^^ 1) >>> 25 &&& 31) * 33554432 +
      (((polymodStep6 chk1 ^^^ 1) >>> 20 &&& 31) * 1048576 +
       (((polymodStep6 chk1 ^^^ 1) >>> 15 &&& 31) * 32768 +
        (((polymodStep6 chk1 ^^^ 1) >>> 10 &&& 31) * 1024 +
         (((polymodStep6 chk1 ^^^ 1) >>> 5 &&& 31) * 32 +
          ((polymodStep6 chk1 ^^^ 1) &&& 31))))) = polymodStep6 chk1 ^^^ 1 := by
    simp only [and31_eq, Nat.shiftRight_eq_div_pow]
    norm_num
    omega
  rw [hsum, ← Nat.xor_assoc, Nat.xor_self, Nat.zero_xor]

theorem chk_fold_eq_one (chk1 c0 c1 c2 c3 c4 c5 : Nat)
    (h0 : c0 < 32) (h1 : c1 < 32) (h2 : c2 < 32) (h3 : c3 < 32) (h4 : c4 < 32) (h5 : c5 < 32)
    (h : List.foldl (fun c v => polymodStep c ^^^ v) chk1 [c0, c1, c2, c3, c4, c5] = 1) :
    [c0, c1, c2, c3, c4, c5] = bech32ChkWords (polymodStep6 chk1 ^^^ 1) := by
  rw [chk_fold6 _ _ _ _ _ _ _ h0 h1 h2 h3 h4 h5] at h
  have hS : c0 * 33554432 + (c1 * 1048576 + (c2 * 32768 + (c3 * 1024 + (c4 * 32 + c5)))) =
      polymodStep6 chk1 ^^^ 1 := by
    have h2' := congrArg (fun z => polymodStep6 chk1 ^^^ z) h
    simp only at h2'
    rw [← Nat.xor_assoc, Nat.xor_self, Nat.zero_xor] at h2'
    exact h2'
  unfold bech32ChkWords
  simp only [and31_eq, Nat.shiftRight_eq_div_pow]
  norm_num
  refine ⟨by omega, by omega, by omega, by omega, by omega, by omega⟩

/- ### bech32 decode/encode inversion helpers -/

theorem chkWords_lt (c : Nat) : ∀ x ∈ bech32ChkWords c, x < 32 := by
  intro x hx
  simp only [bech32ChkWords, List.mem_cons, List.mem_singleton] at hx
  rcases hx with rfl | rfl | rfl | rfl | rfl | rfl | h
  all_goals first | exact and31_lt _ | cases h

theorem lastIndexOf_not_mem : ∀ (l : List Nat) (x : Nat), x ∉ l → lastIndexOf? x l = none
  | [], x => fun _ => rfl
  | a :: l, x => by
    intro h
    unfold lastIndexOf?
    rw [lastIndexOf_not_mem l x (fun hm => h (by simp [hm]))]
    rw [if_neg (fun he => h (by simp [he.symm]))]

theorem charAt_ne_49 : ∀ v < 32, bech32CharAt v ≠ 49 := by decide

theorem notMem49_map_charAt (l : List Nat) (h : ∀ x ∈ l, x < 32) :
    49 ∉ l.map bech32CharAt := by
  intro hmem
  rw [List.mem_map] at hmem
  obtain ⟨v, hv, he⟩ := hmem
  exact charAt_ne_49 v (h v hv) he

theorem lowerCharAt : ∀ v < 32, lowerCode (bech32CharAt v) = bech32CharAt v := by decide

theorem charRev_charAt : ∀ v < 32, bech32CharRev (bech32CharAt v) = some v := by decide

theorem charsRev_map_charAt : ∀ l : List Nat, (∀ x ∈ l, x < 32) →
    bech32CharsRev (l.map bech32CharAt) = some l
  | [], _ => rfl
  | x :: l, h => by
    simp only [List.map_cons]
    unfold bech32CharsRev
    rw [charRev_charAt x (h x (by simp)), charsRev_map_charAt l (fun y hy => h y (by simp [hy]))]

theorem mapLower_charAt : ∀ l : List Nat, (∀ x ∈ l, x < 32) →
    (l.map bech32CharAt).map lowerCode = l.map bech32CharAt
  | [], _ => rfl
  | x :: l, h => by
    simp only [List.map_cons, List.cons.injEq]
    exact ⟨lowerCharAt x (h x (by simp)), mapLower_charAt l (fun y hy => h y (by simp [hy]))⟩

/-- Unfolded form of `bech32Encode` at the hrp `bb`. -/
theorem encode_bb_eq (ws : List Nat) (hlt : ∀ x ∈ ws, x < 32) (hlen : ws.length + 9 ≤ 90) :
    bech32Encode (ascii "bb") ws = some (98 :: 98 :: 49 ::
      (ws ++ bech32ChkWords (polymodStep6
        (ws.foldl (fun chk x => polymodStep chk ^^^ x) 36798530) ^^^ 1)).map bech32CharAt) := by
  unfold bech32Encode
  rw [if_neg (by simp [ascii]; omega)]
  have hlow : toLowerList (ascii "bb") = ascii "bb" := by decide
  have hchk : bech32HrpChk (ascii "bb") = some 36798530 := by decide
  simp only [hlow, hchk]
  have hany : ws.any (fun x => decide (x >>> 5 ≠ 0)) = false := by
    rw [List.any_eq_false]
    intro x hx
    have := hlt x hx
    simp [Nat.shiftRight_eq_div_pow]
    omega
  simp only [ne_eq, hany, Bool.false_eq_true, if_false, List.map_append]
  congr 1

/-- Decoding an encoding with hrp `bb` recovers the hrp and the data words. -/
theorem bech32_decode_encode (ws : List Nat) (hlt : ∀ x ∈ ws, x < 32)
    (hlen : ws.length + 9 ≤ 90) (enc : List Nat)
    (henc : bech32Encode (ascii "bb") ws = some enc) :
    bech32Decode enc = some (ascii "bb", ws) := by
  rw [encode_bb_eq ws hlt hlen] at henc
  set chk1 := ws.foldl (fun chk x => polymodStep chk ^^^ x) 36798530 with hchk1
  set cks := bech32ChkWords (polymodStep6 chk1 ^^^ 1) with hcks
  have hckslt : ∀ x ∈ cks, x < 32 := chkWords_lt _
  have hall : ∀ x ∈ ws ++ cks, x < 32 := by
    intro x hx
    rcases List.mem_append.mp hx with h | h
    · exact hlt x h
    · exact hckslt x h
  have hckslen : cks.length = 6 := rfl
  obtain rfl : enc = 98 :: 98 :: 49 :: (ws ++ cks).map bech32CharAt := by
    exact (Option.some.injEq _ _ ▸ henc.symm : _)
  have hlenenc : (98 :: 98 :: 49 :: (ws ++ cks).map bech32CharAt).length = ws.length + 9 := by
    simp [hckslen]
  have hlowenc : toLowerList (98 :: 98 :: 49 :: (ws ++ cks).map bech32CharAt)
      = 98 :: 98 :: 49 :: (ws ++ cks).map bech32CharAt := by
    simp only [toLowerList, List.map_cons]
    rw [mapLower_charAt _ hall]
    norm_num [lowerCode]
  have hrest : lastIndexOf? 49 ((ws ++ cks).map bech32CharAt) = none :=
    lastIndexOf_not_mem _ 49 (notMem49_map_charAt _ hall)
  have hlast : lastIndexOf? 49 (98 :: 98 :: 49 :: (ws ++ cks).map bech32CharAt) = some 2 := by
    simp only [lastIndexOf?, hrest]
    rfl
  unfold bech32Decode
  rw [if_neg (by rw [hlenenc]; omega), if_neg (by rw [hlenenc]; omega)]
  rw [if_neg (by rw [hlowenc]; simp)]
  simp only [hlowenc, hlast]
  rw [if_neg (by omega : ¬ (2 = 0))]
  have htake : (98 :: 98 :: 49 :: (ws ++ cks).map bech32CharAt).take 2 = ascii "bb" := rfl
  have hdrop : (98 :: 98 :: 49 :: (ws ++ cks).map bech32CharAt).drop 3
      = (ws ++ cks).map bech32CharAt := rfl
  rw [htake, hdrop]
  rw [if_neg (by simp [hckslen])]
  have hhrp : bech32HrpChk (ascii "bb") = some 36798530 := by decide
  rw [hhrp, charsRev_map_charAt _ hall]
  have hfold : List.foldl (fun chk v => polymodStep chk ^^^ v) 36798530 (ws ++ cks) = 1 := by
    rw [List.foldl_append, hcks, hchk1]
    exact chk_fold_chkWords _
  simp only [hfold, ne_eq]
  rw [if_neg (by simp)]
  congr 1
  congr 1
  have hl : (ws ++ cks).length - 6 = ws.length := by simp [hckslen]
  rw [hl, List.take_left]

/- ### Hex and charset inversion lemmas -/

theorem hexVal_lt (c : Nat) : hexVal c < 16 := by
  unfold hexVal
  split_ifs <;> omega

theorem hexDecode_lt : ∀ s : List Nat, ∀ b ∈ hexDecode s, b < 256
  | [] => by intro b hb; cases hb
  | [c] => by intro b hb; cases hb
  | c1 :: c2 :: rest => by
    intro b hb
    rcases hb with _ | ⟨_, hb⟩
    · have := hexVal_lt c1
      have := hexVal_lt c2
      omega
    · exact hexDecode_lt rest b hb

theorem isHexDigit_lt (c : Nat) (h : isHexDigit c = true) : c < 128 := by
  simp [isHexDigit] at h
  omega

theorem hexDigitCode_lower : ∀ c < 128, isHexDigit c = true →
    hexDigitCode (hexVal c) = lowerCode c := by decide

theorem toHex_hexDecode : ∀ h : List Nat, (∀ c ∈ h, isHexDigit c = true) →
    h.length % 2 = 0 → toHex (hexDecode h) = toLowerList h
  | [] => by intro _ _; rfl
  | [c] => by intro _ hl; simp at hl
  | c1 :: c2 :: rest => by
    intro hhex hl
    have h1 : isHexDigit c1 = true := hhex c1 (by simp)
    have h2 : isHexDigit c2 = true := hhex c2 (by simp)
    have hv2 := hexVal_lt c2
    simp only [hexDecode, toHex, toLowerList, List.map_cons]
    have hdiv : (16 * hexVal c1 + hexVal c2) / 16 = hexVal c1 := by omega
    have hmod : (16 * hexVal c1 + hexVal c2) % 16 = hexVal c2 := by omega
    rw [hdiv, hmod]
    rw [hexDigitCode_lower c1 (isHexDigit_lt c1 h1) h1,
        hexDigitCode_lower c2 (isHexDigit_lt c2 h2) h2]
    have := toHex_hexDecode rest (fun c hc => hhex c (by simp [hc]))
      (by simp only [List.length_cons] at hl; omega)
    rw [this]
    rfl

theorem hexDigitCode_isHex : ∀ v < 16, isHexDigit (hexDigitCode v) = true := by decide

theorem isHex_toHex : ∀ bytes : List Nat, (∀ b ∈ bytes, b < 256) →
    ∀ c ∈ toHex bytes, isHexDigit c = true
  | [] => by intro _ c hc; cases hc
  | b :: rest => by
    intro hb c hc
    have hblt : b < 256 := hb b (by simp)
    rcases hc with _ | ⟨_, hc⟩
    · exact hexDigitCode_isHex (b / 16) (by omega)
    · rcases hc with _ | ⟨_, hc⟩
      · exact hexDigitCode_isHex (b % 16) (by omega)
      · exact isHex_toHex rest (fun x hx => hb x (by simp [hx])) c hc

theorem hexVal_hexDigitCode : ∀ v < 16, hexVal (hexDigitCode v) = v := by decide

theorem hexDecode_toHex : ∀ bytes : List Nat, (∀ b ∈ bytes, b < 256) →
    hexDecode (toHex bytes) = bytes
  | [] => by intro _; rfl
  | b :: rest => by
    intro hb
    have hblt : b < 256 := hb b (by simp)
    simp only [toHex, hexDecode]
    rw [hexVal_hexDigitCode (b / 16) (by omega), hexVal_hexDigitCode (b % 16) (by omega)]
    rw [hexDecode_toHex rest (fun x hx => hb x (by simp [hx]))]
    congr 1
    omega

theorem emit8_lt : ∀ (b v x : Nat), x ∈ emit8 v b → x < 256
  | b + 8, v, x => by
    intro hx
    rcases hx with _ | ⟨_, hx⟩
    · rw [and255_eq]; omega
    · exact emit8_lt b v x hx
  | 0, _, _ => by intro hx; cases hx
  | 1, _, _ => by intro hx; cases hx
  | 2, _, _ => by intro hx; cases hx
  | 3, _, _ => by intro hx; cases hx
  | 4, _, _ => by intro hx; cases hx
  | 5, _, _ => by intro hx; cases hx
  | 6, _, _ => by intro hx; cases hx
  | 7, _, _ => by intro hx; cases hx

theorem conv58_lt : ∀ (ws : List Nat) (v bits : Nat) (out : List Nat),
    conv58 ws v bits = some out → ∀ x ∈ out, x < 256
  | [], v, bits, out => by
    intro h x hx
    unfold conv58 at h
    split_ifs at h
    cases h
    cases hx
  | d :: rest, v, bits, out => by
    intro h x hx
    unfold conv58 at h
    rw [Option.map_eq_some'] at h
    obtain ⟨out', hout', rfl⟩ := h
    rcases List.mem_append.mp hx with hm | hm
    · exact emit8_lt _ _ x hm
    · exact conv58_lt rest _ _ out' hout' x hm

theorem lastIndexOf_none_not_mem : ∀ (l : List Nat) (x : Nat),
    lastIndexOf? x l = none → x ∉ l
  | [], x => by intro _ h; cases h
  | a :: l, x => by
    intro h hm
    unfold lastIndexOf? at h
    rcases hrec : lastIndexOf? x l with _ | i
    · rw [hrec] at h
      split_ifs at h with he
      rcases hm with _ | ⟨_, hm⟩
      · exact he rfl
      · exact lastIndexOf_none_not_mem l x hrec hm
    · rw [hrec] at h
      cases h

theorem lastIndexOf_some_split : ∀ (l : List Nat) (x i : Nat),
    lastIndexOf? x l = some i →
    l.take i ++ x :: l.drop (i + 1) = l ∧ x ∉ l.drop (i + 1)
  | [], x, i => by intro h; cases h
  | a :: l, x, i => by
    intro h
    unfold lastIndexOf? at h
    rcases hrec : lastIndexOf? x l with _ | j
    · rw [hrec] at h
      split_ifs at h with he
      cases h
      subst he
      exact ⟨by simp, lastIndexOf_none_not_mem l a hrec⟩
    · rw [hrec] at h
      cases h
      obtain ⟨h1, h2⟩ := lastIndexOf_some_split l x j hrec
      constructor
      · simp only [List.take_succ_cons, List.drop_succ_cons, List.cons_append, List.cons.injEq]
        exact ⟨by trivial, h1⟩
      · simpa using h2

theorem indexInAux_some : ∀ (l : List Nat) (c i v : Nat),
    indexInAux c l i = some v →
    ∃ j, j < l.length ∧ v = i + j ∧ l.getD j 0 = c
  | [], c, i, v => by intro h; cases h
  | a :: l, c, i, v => by
    intro h
    unfold indexInAux at h
    split_ifs at h with he
    · cases h
      exact ⟨0, by simp, by omega, he⟩
    · obtain ⟨j, hj, hv, hg⟩ := indexInAux_some l c (i + 1) v h
      exact ⟨j + 1, by simpa using hj, by omega, by simpa using hg⟩

theorem charRev_some (c v : Nat) (h : bech32CharRev c = some v) :
    v < 32 ∧ bech32CharAt v = c := by
  obtain ⟨j, hj, hv, hg⟩ := indexInAux_some _ c 0 v h
  have hlen : bech32Charset.length = 32 := rfl
  rw [hlen] at hj
  subst hv
  simp only [Nat.zero_add]
  exact ⟨hj, hg⟩

theorem charsRev_some : ∀ (cs vs : List Nat), bech32CharsRev cs = some vs →
    cs = vs.map bech32CharAt ∧ ∀ v ∈ vs, v < 32
  | [], vs => by
    intro h
    cases h
    exact ⟨rfl, by intro v hv; cases hv⟩
  | c :: cs, vs => by
    intro h
    unfold bech32CharsRev at h
    rcases h1 : bech32CharRev c with _ | v
    · rw [h1] at h; cases h
    · rw [h1] at h
      rcases h2 : bech32CharsRev cs with _ | vs'
      · rw [h2] at h; cases h
      · rw [h2] at h
        cases h
        obtain ⟨hv, hc⟩ := charRev_some c v h1
        obtain ⟨hcs, hvs⟩ := charsRev_some cs vs' h2
        constructor
        · simp only [List.map_cons, hc, hcs]
        · intro x hx
          rcases hx with _ | ⟨_, hx⟩
          · exact hv
          · exact hvs x hx

/- ### Address round-trip (C6) -/

theorem startsWith0x_eq (e : List Nat) (h : startsWithL (ascii "0x") e = true) :
    e = 48 :: 120 :: e.drop 2 := by
  have ha : ascii "0x" = [48, 120] := rfl
  rw [ha] at h
  rcases e with _ | ⟨a, e⟩
  · simp [startsWithL] at h
  · rcases e with _ | ⟨b, e⟩
    · simp [startsWithL] at h
    · simp only [startsWithL, Bool.and_eq_true, decide_eq_true_eq] at h
      obtain ⟨h1, h2, _⟩ := h
      subst h1; subst h2
      rfl

theorem toLower_0x (r : List Nat) :
    toLowerList (48 :: 120 :: r) = 48 :: 120 :: toLowerList r := rfl

/-- `ethToCosmos` then `cosmosToEth` recovers the 0x address up to case. -/
theorem ethToCosmos_roundtrip (e c : List Nat) (h : ethToCosmos e = .ok c) :
    cosmosToEth c = .ok (toLowerList e) := by
  simp only [ethToCosmos] at h
  by_cases h0x : startsWithL (ascii "0x") e = true
  swap
  · rw [if_pos h0x] at h; cases h
  rw [if_neg (not_not.mpr h0x)] at h
  by_cases hhex : (e.drop 2).length = 40 ∧ isHexList (e.drop 2) = true
  swap
  · rw [if_pos hhex] at h; cases h
  rw [if_neg (not_not.mpr hhex)] at h
  rcases henc : bech32Encode (ascii "bb") (toWordsB (hexDecode (e.drop 2))) with _ | s
  · rw [henc] at h; cases h
  · rw [henc] at h
    cases h
    obtain ⟨hlen40, hishex⟩ := hhex
    set hex := e.drop 2 with hhexdef
    set bytes := hexDecode hex with hbytesdef
    have hblen : bytes.length = 20 := by
      rw [hbytesdef, hexDecode_length, hlen40]
    have hblt : ∀ b ∈ bytes, b < 256 := hexDecode_lt hex
    set ws := toWordsB bytes with hwsdef
    have hwslen : ws.length = 32 := by
      rw [hwsdef, toWordsB, conv85_length _ _ _ (by omega), hblen]
    have hwslt : ∀ x ∈ ws, x < 32 := fun x hx => conv85_lt _ _ _ _ hx
    have hdec : bech32Decode c = some (ascii "bb", ws) :=
      bech32_decode_encode ws hwslt (by omega) c henc
    have hform := encode_bb_eq ws hwslt (by omega)
    rw [henc] at hform
    have hc : c = 98 :: 98 :: 49 ::
        (ws ++ bech32ChkWords (polymodStep6
          (ws.foldl (fun chk x => polymodStep chk ^^^ x) 36798530) ^^^ 1)).map bech32CharAt := by
      exact (Option.some.injEq _ _ ▸ hform : _)
    unfold cosmosToEth
    rw [if_neg (by rw [hc]; simp [ascii, startsWithL])]
    rw [hdec]
    have hfw : fromWordsB ws = some bytes := by
      rw [hwsdef, toWordsB, fromWordsB]
      exact conv_roundtrip_85 4 bytes (by omega) hblt 0 0
    simp only [hfw]
    rw [if_neg (by rw [hblen]; omega)]
    congr 1
    have hed : toHex bytes = toLowerList hex := by
      rw [hbytesdef]
      refine toHex_hexDecode hex ?_ ?_
      · intro x hx
        have : hex.all isHexDigit = true := by
          simp only [isHexList, Bool.and_eq_true] at hishex
          exact hishex.1
        exact List.all_eq_true.mp this x hx
      · rw [hlen40]
    rw [hed]
    have he2 : e = 48 :: 120 :: hex := by
      rw [hhexdef]
      exact startsWith0x_eq e h0x
    rw [he2, toLower_0x]
    rfl


theorem startsWithL_self_append : ∀ p r : List Nat, startsWithL p (p ++ r) = true
  | [], r => rfl
  | a :: p, r => by
    show (decide (a = a) && startsWithL p (p ++ r)) = true
    rw [startsWithL_self_append p r]
    simp

/-- `cosmosToEth` then `ethToCosmos` recovers a 20-byte `bb` address up to case. -/
theorem cosmosToEth_roundtrip (s hrp words e : List Nat)
    (hdec : bech32Decode s = some (hrp, words)) (hbb : hrp = ascii "bb")
    (heth : cosmosToEth s = .ok e) :
    ethToCosmos e = .ok (toLowerList s) := by
  subst hbb
  -- invert cosmosToEth
  simp only [cosmosToEth] at heth
  by_cases hbb1 : startsWithL (ascii "bb1") s = true
  swap
  · rw [if_pos hbb1] at heth; cases heth
  rw [if_neg (not_not.mpr hbb1)] at heth
  simp only [hdec] at heth
  rcases hfw : fromWordsB words with _ | bytes
  · simp only [hfw] at heth; cases heth
  simp only [hfw] at heth
  by_cases hb20 : bytes.length = 20
  swap
  · rw [if_pos hb20] at heth; cases heth
  rw [if_neg (not_not.mpr hb20)] at heth
  cases heth
  -- invert bech32Decode
  simp only [bech32Decode] at hdec
  split_ifs at hdec with hl8 hl90 hcase
  rcases hli : lastIndexOf? 49 (toLowerList s) with _ | sp
  · simp only [hli] at hdec; cases hdec
  simp only [hli] at hdec
  by_cases hsp0 : sp = 0
  · rw [if_pos hsp0] at hdec; cases hdec
  rw [if_neg hsp0] at hdec
  by_cases hwc6 : (List.drop (sp + 1) (toLowerList s)).length < 6
  · rw [if_pos hwc6] at hdec; cases hdec
  rw [if_neg hwc6] at hdec
  rcases hchk : bech32HrpChk (List.take sp (toLowerList s)) with _ | chk0
  · simp only [hchk] at hdec; cases hdec
  simp only [hchk] at hdec
  rcases hcr : bech32CharsRev (List.drop (sp + 1) (toLowerList s)) with _ | vals
  · simp only [hcr] at hdec; cases hdec
  simp only [hcr] at hdec
  by_cases hf1 : List.foldl (fun chk v => polymodStep chk ^^^ v) chk0 vals ≠ 1
  · rw [if_pos hf1] at hdec; cases hdec
  rw [if_neg hf1] at hdec
  rw [Option.some.injEq, Prod.mk.injEq] at hdec
  obtain ⟨hhrp, hwords⟩ := hdec
  -- sp = 2
  obtain ⟨hsplit, hnomem⟩ := lastIndexOf_some_split (toLowerList s) 49 sp hli
  have hlen2 : (List.take sp (toLowerList s)).length = 2 := by rw [hhrp]; rfl
  have hlensplit := congrArg List.length hsplit
  simp only [List.length_append, List.length_cons, List.length_take, List.length_drop]
    at hlensplit
  rw [List.length_take] at hlen2
  have hsp2 : sp = 2 := by omega
  subst hsp2
  -- structure of toLowerList s
  obtain ⟨hwchars, hvals32⟩ := charsRev_some _ vals hcr
  have hchk0 : chk0 = 36798530 := by
    rw [hhrp] at hchk
    have : bech32HrpChk (ascii "bb") = some 36798530 := by decide
    rw [this, Option.some.injEq] at hchk
    omega
  subst hchk0
  have hvlen : vals.length = (List.drop (2 + 1) (toLowerList s)).length := by
    rw [hwchars, List.length_map]
  -- split vals into data words and checksum words
  have hvsplit : vals.take (vals.length - 6) ++ vals.drop (vals.length - 6) = vals :=
    List.take_append_drop _ _
  set ws := vals.take (vals.length - 6) with hwsdef
  set cks := vals.drop (vals.length - 6) with hcksdef
  have hckslen : cks.length = 6 := by
    rw [hcksdef, List.length_drop]
    omega
  have hwslt : ∀ x ∈ ws, x < 32 := fun x hx => hvals32 x (List.take_subset _ _ hx)
  have hckslt : ∀ x ∈ cks, x < 32 := fun x hx => hvals32 x (List.drop_subset _ _ hx)
  subst hwords
  -- data word count from the byte length
  have hfw' : conv58 ws 0 0 = some bytes := hfw
  obtain ⟨hle1, hle2⟩ := conv58_length ws 0 0 bytes (by omega) hfw'
  rw [hb20] at hle1 hle2
  have hwslen : ws.length = 32 := by omega
  have hblt : ∀ b ∈ bytes, b < 256 := conv58_lt ws 0 0 bytes hfw'
  -- checksum words are the emitted checksum of the data words
  have hfold : List.foldl (fun chk v => polymodStep chk ^^^ v) 36798530 vals = 1 :=
    not_not.mp hf1
  rw [← hvsplit, List.foldl_append] at hfold
  have hcks_eq : cks = bech32ChkWords (polymodStep6
      (List.foldl (fun chk v => polymodStep chk ^^^ v) 36798530 ws) ^^^ 1) := by
    rcases cks with _ | ⟨c0, cks⟩; · simp at hckslen
    rcases cks with _ | ⟨c1, cks⟩; · simp at hckslen
    rcases cks with _ | ⟨c2, cks⟩; · simp at hckslen
    rcases cks with _ | ⟨c3, cks⟩; · simp at hckslen
    rcases cks with _ | ⟨c4, cks⟩; · simp at hckslen
    rcases cks with _ | ⟨c5, cks⟩; · simp at hckslen
    rcases cks with _ | ⟨c6, cks⟩
    swap; · simp at hckslen
    exact chk_fold_eq_one _ c0 c1 c2 c3 c4 c5
      (hckslt c0 (by simp)) (hckslt c1 (by simp)) (hckslt c2 (by simp))
      (hckslt c3 (by simp)) (hckslt c4 (by simp)) (hckslt c5 (by simp)) hfold
  -- recover the data words from the bytes
  obtain ⟨bytes', hb', hconv', _, _⟩ :=
    conv_roundtrip_58 4 ws (by omega) hwslt 0
  have hbytes' : bytes' = bytes := by
    rw [hfw'] at hb'
    rw [Option.some.injEq] at hb'
    exact hb'.symm
  have htow : toWordsB bytes = ws := by
    rw [← hbytes']
    exact hconv' 0
  -- now compute ethToCosmos
  simp only [ethToCosmos]
  rw [if_neg (not_not.mpr (startsWithL_self_append (ascii "0x") (toHex bytes)))]
  have hdrop2 : List.drop 2 (ascii "0x" ++ toHex bytes) = toHex bytes := rfl
  rw [hdrop2]
  have hhexlen : (toHex bytes).length = 40 := by
    rw [toHex_length, hb20]
  have hishex : isHexList (toHex bytes) = true := by
    simp only [isHexList, Bool.and_eq_true, List.all_eq_true, Bool.not_eq_true']
    constructor
    · intro x hx
      exact isHex_toHex bytes hblt x hx
    · rcases bytes with _ | ⟨b, bs⟩
      · simp at hb20
      · rfl
  rw [if_neg (not_not.mpr ⟨hhexlen, hishex⟩)]
  rw [hexDecode_toHex bytes hblt, htow]
  have henc := encode_bb_eq ws hwslt (by omega)
  simp only [henc]
  congr 1
  rw [← hcks_eq, hvsplit, ← hwchars]
  conv_rhs => rw [← hsplit, hhrp]
  rfl

/-- C6 (corrected): for a 0x address accepted by `ethToCosmos`, converting the
resulting bech32 address back with `cosmosToEth` yields the original text
lower-cased; conversely, for an address that `bech32Decode` parses with the
human-readable part exactly `bb` and that `cosmosToEth` accepts (20-byte
payload), converting the resulting 0x address back with `ethToCosmos` yields
the original text lower-cased.  The original claim, quantified over every
bech32 address with a 20-byte payload, is refuted by `c6_counterexample`. -/
theorem c6_address_roundtrip :
    (∀ e c : List Nat, ethToCosmos e = .ok c →
      cosmosToEth c = .ok (toLowerList e)) ∧
    (∀ s hrp words e : List Nat, bech32Decode s = some (hrp, words) →
      hrp = ascii "bb" → cosmosToEth s = .ok e →
      ethToCosmos e = .ok (toLowerList s)) :=
  ⟨ethToCosmos_roundtrip, cosmosToEth_roundtrip⟩

/-- C6 witness: the all-zero 20-byte address round-trips in both directions. -/
theorem c6_witness :
    cosmosToEth (ascii "bb1qqqqqqqqqqqqqqqqqqqqqqqqqqqqqqqqs7gvmv") =
      .ok (toLowerList (ascii "0x0000000000000000000000000000000000000000")) ∧
    ethToCosmos (ascii "0x0000000000000000000000000000000000000000") =
      .ok (toLowerList (ascii "bb1qqqqqqqqqqqqqqqqqqqqqqqqqqqqqqqqs7gvmv")) :=
  ⟨c6_address_roundtrip.1 (ascii "0x0000000000000000000000000000000000000000")
      (ascii "bb1qqqqqqqqqqqqqqqqqqqqqqqqqqqqqqqqs7gvmv") (by rfl),
   c6_address_roundtrip.2 (ascii "bb1qqqqqqqqqqqqqqqqqqqqqqqqqqqqqqqqs7gvmv")
      (ascii "bb") (List.replicate 32 0)
      (ascii "0x0000000000000000000000000000000000000000")
      (by decide) rfl (by rfl)⟩

/-- C6 counterexample to the original claim: the address
`bb1q1qqqqqqqqqqqqqqqqqqqqqqqqqqqqqqqqhhsqgk` (human-readable part `bb1q`)
decodes to a 20-byte payload and `cosmosToEth` accepts it, but converting the
resulting 0x address back yields a different text, even ignoring case. -/
theorem c6_counterexample :
    bech32Decode (ascii "bb1q1qqqqqqqqqqqqqqqqqqqqqqqqqqqqqqqqhhsqgk") =
      some (ascii "bb1q", List.replicate 32 0) ∧
    fromWordsB (List.replicate 32 0) = some (List.replicate 20 0) ∧
    cosmosToEth (ascii "bb1q1qqqqqqqqqqqqqqqqqqqqqqqqqqqqqqqqhhsqgk") =
      .ok (ascii "0x0000000000000000000000000000000000000000") ∧
    ethToCosmos (ascii "0x0000000000000000000000000000000000000000") =
      .ok (ascii "bb1qqqqqqqqqqqqqqqqqqqqqqqqqqqqqqqqs7gvmv") ∧
    toLowerList (ascii "bb1qqqqqqqqqqqqqqqqqqqqqqqqqqqqqqqqs7gvmv") ≠
      toLowerList (ascii "bb1q1qqqqqqqqqqqqqqqqqqqqqqqqqqqqqqqqhhsqgk") :=
  ⟨by decide, by decide, by rfl, by rfl, by decide⟩
